import Mathlib

/-!
# MudCore connection core (src/descriptor.c)

A shallow embedding of the descriptor module: the per-connection record, its
bounded buffers and command queue, the output path (descriptor_buffer_output,
descriptor_do_send), the line assembler (descriptor_handle_input), the state
machine operations (close, drain, delay) and the per-tick phases over the
registry.

Conventions.
* A byte (gchar) is a natural number; the control bytes are 8, 10 and 13.
* Everything the module does to the outside (socket calls, Lua hooks, log
  lines, calls into the telnet engine) is appended to World.trace in program
  order.
* Everything the outside answers (results of send and recv, the outcome of a
  Lua hook, the bytes the telnet engine asks to transmit, the clock) is read
  from an Env of oracles.  The socket oracles are indexed by the number of
  calls made so far, the others by the length of the trace, so one Env
  describes one complete run of a stateful environment.
* The while loops (descriptor_do_send, descriptor_do_recv and the loop of
  descriptor_buffer_output) take fuel.  A loop whose condition is already
  false returns without consuming fuel; running out of fuel is none.
* The scripting layer is external: a call into it (command, resume, prompt,
  on_close) is recorded, and what a script then asks of this module is a
  separate operation.
-/

namespace MudCore

/-! ## Constants (descriptor.c lines 36-39) -/

def COMMAND_QUEUE_SIZE : Nat := 10
def LINE_BUFFER_SIZE : Nat := 512
def OUTPUT_BUFFER_SIZE : Nat := 4096
def RECV_BUFFER_SIZE : Nat := 512

abbrev Byte := Nat

/-! ## Bounded byte buffer (buffer.h, absent from src) -/

/-- Modelled from the spec: struct buffer of buffer.c, which is not under src.
Section 4.1: fixed capacity set at creation; the field used of the C struct is
the length of data. -/
structure Buffer where
  size : Nat
  data : List Byte
deriving DecidableEq, Repr

/-- Modelled from the spec: the used field of struct buffer. -/
def Buffer.used (b : Buffer) : Nat := b.data.length

/-- Modelled from the spec: buffer_new of buffer.c, an empty buffer of the
given capacity. -/
def buffer_new (size : Nat) : Buffer := { size := size, data := [] }

/-- Modelled from the spec: buffer_append of buffer.c. Section 4.1: accepts up
to remaining capacity, never overflows, returns how many bytes were actually
stored. The result pairs the buffer with the accepted count. -/
def buffer_append (b : Buffer) (data : List Byte) : Buffer × Nat :=
  let n := min data.length (b.size - b.used)
  ({ b with data := b.data ++ data.take n }, n)

/-- Modelled from the spec: buffer_append_c of buffer.c. Section 4.1:
append_byte(b) -> accepted:bool. -/
def buffer_append_c (b : Buffer) (c : Byte) : Buffer × Bool :=
  if b.used < b.size then ({ b with data := b.data ++ [c] }, true) else (b, false)

/-- Modelled from the spec: buffer_drain of buffer.c. Section 4.1: removes the
first n bytes, preserving order of the remainder. -/
def buffer_drain (b : Buffer) (n : Nat) : Buffer := { b with data := b.data.drop n }

/-- Modelled from the spec: buffer_clear of buffer.c. -/
def buffer_clear (b : Buffer) : Buffer := { b with data := [] }

/-- Modelled from the spec: buffer_backspace of buffer.c. Section 4.1: removes
the last stored byte if any. -/
def buffer_backspace (b : Buffer) : Buffer := { b with data := b.data.dropLast }

/-! ## Bounded command queue (queue.h, absent from src) -/

/-- Modelled from the spec: struct queue of queue.c, which is not under src: a
FIFO of completed lines with a capacity; used is the number of items. -/
structure Queue where
  size : Nat
  items : List (List Byte)
deriving DecidableEq, Repr

/-- Modelled from the spec: the used field of struct queue. -/
def Queue.used (q : Queue) : Nat := q.items.length

/-- Modelled from the spec: queue_new of queue.c. -/
def queue_new (size : Nat) : Queue := { size := size, items := [] }

/-- Modelled from the spec: queue_push_back_len of queue.c. Section 4.4: push
the accumulated contents verbatim; if the queue is full, push fails. -/
def queue_push_back_len (q : Queue) (line : List Byte) : Queue × Bool :=
  if q.used < q.size then ({ q with items := q.items ++ [line] }, true) else (q, false)

/-- Modelled from the spec: queue_pop_front of queue.c: removes and returns the
oldest line. The caller checks used > 0 first. -/
def queue_pop_front (q : Queue) : Queue × List Byte :=
  match q.items with
  | [] => (q, [])
  | line :: rest => ({ q with items := rest }, line)

/-! ## Time (timeval.h, absent from src) -/

/-- A struct timeval. -/
structure Timeval where
  tv_sec : Int
  tv_usec : Int
deriving DecidableEq, Repr

/-- The instant a timeval denotes, in microseconds. -/
def Timeval.micros (t : Timeval) : Int := t.tv_sec * 1000000 + t.tv_usec

/-- Modelled from the spec: timeval_add_delay of timeval.c, which is not under
src. Section 4.2: the deadline is extended by the duration (added). The gdouble
duration in seconds is represented at the resolution of a timeval, as a whole
number of microseconds; the result is normalised. -/
def timeval_add_delay (t : Timeval) (delay : Int) : Timeval :=
  { tv_sec := t.tv_sec + (t.tv_usec + delay) / 1000000,
    tv_usec := (t.tv_usec + delay) % 1000000 }

/-- Modelled from the spec: timeval_compare of timeval.c, which is not under
src: negative, zero or positive as the first instant is before, at or after the
second. -/
def timeval_compare (a b : Timeval) : Int :=
  if a.micros < b.micros then -1 else if a.micros = b.micros then 0 else 1

/-! ## The connection record (descriptor.h) -/

inductive DescriptorState where
  | OPEN
  | DELAYING
  | DRAINING
  | CLOSED
deriving DecidableEq, Repr

/-- The fields of struct descriptor that descriptor.c reads or writes. The
telnet engine is external (see Env); width and height are the fields of the Lua
table behind extra_data_ref that this module sets and clears. -/
structure Descriptor where
  fd : Int
  state : DescriptorState
  skip_until_newline : Bool
  needs_prompt : Bool
  needs_newline : Bool
  self_delayed : Bool
  delay_end : Timeval
  line_buffer : Buffer
  output_buffer : Buffer
  command_queue : Queue
  width : Option Nat
  height : Option Nat
deriving DecidableEq, Repr

/-! ## The outside world -/

/-- Telnet option codes and commands used by this module. -/
inductive Telopt where
  | ECHO
  | COMPRESS2
  | NAWS
  | other (code : Nat)
deriving DecidableEq, Repr

inductive TelnetCmd where
  | WILL
  | WONT
  | DO
  | DONT
  | GA
deriving DecidableEq, Repr

/-- A call into the telnet engine. -/
inductive TelnetCall where
  | send (text : List Byte)
  | negotiate (cmd : TelnetCmd) (opt : Telopt)
  | iac (cmd : TelnetCmd)
  | begin_compress2
  | recv (bytes : List Byte)
deriving DecidableEq, Repr

/-- The log lines of descriptor.c. -/
inductive LogLine where
  | debug_sent (count : Nat)
  | perror_send
  | perror_recv
  | warn_malformed_naws
  | warn_libtelnet
  | error_libtelnet
  | error_prompt_callback
  | error_telnet_init
  | error_fd_in_error_state
  | error_on_close
  | warn_delay_nonexistent
  | warn_delay_negative
deriving DecidableEq, Repr

/-- What the module does to its environment, in program order. -/
inductive Effect where
  | sent (fd : Int) (bytes : List Byte)
  | socket_close (fd : Int)
  | on_close (fd : Int)
  | telnet (fd : Int) (call : TelnetCall)
  | log (line : LogLine)
  | command (fd : Int) (line : List Byte)
  | resume (fd : Int)
  | prompt (fd : Int)
  | destroy (fd : Int)
  | start (fd : Int)
deriving DecidableEq, Repr

/-- Result of one send(2) on a non-blocking socket: the socket takes up to
room bytes of what is offered, or the call fails with the given errno. -/
inductive SendResult where
  | accepts (room : Nat)
  | EAGAIN
  | EINTR
  | ECONNRESET
  | failure
deriving DecidableEq, Repr

/-- Result of one recv(2): the bytes the socket has ready (at most
RECV_BUFFER_SIZE of them are taken; none is the return value 0, peer end of
file), or a failure with the given errno. -/
inductive RecvResult where
  | bytes (data : List Byte)
  | EAGAIN
  | EINTR
  | failure
deriving DecidableEq, Repr

/-- Outcome of running a Lua hook: there is none, it returns, or it raises. -/
inductive HookOutcome where
  | absent
  | ok
  | raises
deriving DecidableEq, Repr

/-- An event raised by the telnet engine (telnet_event_t). -/
inductive TelnetEvent where
  | DATA (buffer : List Byte)
  | SEND (buffer : List Byte)
  | DO (opt : Telopt)
  | WONT (opt : Telopt)
  | SUBNEGOTIATION (opt : Telopt) (buffer : List Byte)
  | WARNING
  | ERROR
  | other
deriving DecidableEq, Repr

/-- Outcome of the Lua prompt lookup of descriptor_send_prompt (lines 241-257),
as the C code sees it. The prompt field of the connection table is either no
function, and is then taken as it is (static), or a function, which lua_pcall
runs with one result (returns, raises). lua_tostring (line 257) then gives the
bytes of a Lua string (a number is converted), which may hold NUL bytes, or
NULL for every other value: nil, as when the field is missing or the function
returns nothing, a boolean, a table. The outcomes with NULL are static_null and
returns_null. -/
inductive PromptOutcome where
  | static (t : List Byte)
  | static_null
  | returns (t : List Byte)
  | returns_null
  | raises
deriving DecidableEq, Repr

/-- The environment of one run. The socket oracles are indexed by the number of
earlier calls, the others by the length of the trace at the call.

Modelled from the spec: the telnet engine (libtelnet) is external. Section 6:
commands offered to it raise transmit events; feed(bytes) raises events of any
kind. telnet_tx gives the payloads of the transmit events a command raises,
telnet_rx the events a telnet_recv raises. -/
structure Env where
  send : Nat → SendResult
  recv : Nat → RecvResult
  on_close : Nat → HookOutcome
  prompt : Nat → PromptOutcome
  telnet_tx : Nat → TelnetCall → List (List Byte)
  telnet_rx : Nat → List Byte → List TelnetEvent
  clock : Nat → Timeval
  telnet_init_ok : Nat → Bool
  big_endian : Bool

/-- The observable history of a run. -/
structure World where
  trace : List Effect
  sends : Nat
  recvs : Nat
deriving DecidableEq, Repr

/-- Append one effect to the trace. -/
def World.emit (w : World) (e : Effect) : World := { w with trace := w.trace ++ [e] }

/-! ## descriptor.c -/

/-- descriptor_close (lines 411-431). -/
def descriptor_close (E : Env) (d : Descriptor) (w : World) : Descriptor × World :=
  if d.state = DescriptorState.CLOSED then (d, w)
  else
    let w1 :=
      match E.on_close w.trace.length with
      | HookOutcome.absent => w
      | HookOutcome.ok => w.emit (Effect.on_close d.fd)
      | HookOutcome.raises =>
          (w.emit (Effect.on_close d.fd)).emit (Effect.log LogLine.error_on_close)
    ({ d with state := DescriptorState.CLOSED }, w1.emit (Effect.socket_close d.fd))

/-- descriptor_should_recv (lines 68-70). -/
def descriptor_should_recv (d : Descriptor) : Bool :=
  d.state = DescriptorState.OPEN

/-- descriptor_should_send (lines 73-76). -/
def descriptor_should_send (d : Descriptor) : Bool :=
  d.state ≠ DescriptorState.CLOSED ∧ d.output_buffer.used > 0

/-- descriptor_do_send (lines 79-102). Each iteration of the while loop makes
one send call and takes one unit of fuel. -/
def descriptor_do_send (E : Env) : Nat → Descriptor → World → Option (Descriptor × World)
  | 0, d, w => if descriptor_should_send d then none else some (d, w)
  | fuel + 1, d, w =>
    if descriptor_should_send d then
      let w1 : World := { w with sends := w.sends + 1 }
      match E.send w.sends with
      | SendResult.EAGAIN => some (d, w1)
      | SendResult.EINTR => descriptor_do_send E fuel d w1
      | SendResult.ECONNRESET => some (descriptor_close E d w1)
      | SendResult.failure =>
          some (descriptor_close E d (w1.emit (Effect.log LogLine.perror_send)))
      | SendResult.accepts room =>
          let count := min room d.output_buffer.used
          let w2 := (w1.emit (Effect.sent d.fd (d.output_buffer.data.take count))).emit
            (Effect.log (LogLine.debug_sent count))
          descriptor_do_send E fuel
            { d with output_buffer := buffer_drain d.output_buffer count } w2
    else some (d, w)

/-- The while loop of descriptor_buffer_output (lines 131-137); rest is
data + added, the part of data not yet accepted by the output buffer. -/
def descriptor_buffer_output_loop (E : Env) (fuel : Nat) :
    Nat → Descriptor → World → List Byte → Option (Descriptor × World)
  | 0, d, w, rest => if rest.length > 0 then none else some (d, w)
  | n + 1, d, w, rest =>
    if rest.length > 0 then
      match descriptor_do_send E fuel d w with
      | none => none
      | some (d1, w1) =>
        if ¬ descriptor_should_send d1 then some (d1, w1)
        else
          let r := buffer_append d1.output_buffer rest
          descriptor_buffer_output_loop E fuel n { d1 with output_buffer := r.1 } w1
            (rest.drop r.2)
    else some (d, w)

/-- descriptor_buffer_output (lines 127-138). -/
def descriptor_buffer_output (E : Env) (fuel : Nat) (d : Descriptor) (w : World)
    (data : List Byte) : Option (Descriptor × World) :=
  let r := buffer_append d.output_buffer data
  descriptor_buffer_output_loop E fuel fuel { d with output_buffer := r.1 } w (data.drop r.2)

/-- A command given to the telnet engine. The call is recorded; every transmit
event the engine raises in answer is handled by the TELNET_EV_SEND case of
descriptor_on_telnet_event (line 196), that is by descriptor_buffer_output. -/
def telnet_transmit (E : Env) (fuel : Nat) :
    List (List Byte) → Descriptor → World → Option (Descriptor × World)
  | [], d, w => some (d, w)
  | chunk :: chunks, d, w =>
    match descriptor_buffer_output E fuel d w chunk with
    | none => none
    | some (d1, w1) => telnet_transmit E fuel chunks d1 w1

/-- Modelled from the spec: a command of the telnet engine (telnet_send,
telnet_negotiate, telnet_iac, telnet_begin_compress2 of libtelnet). Section 6:
send(text) raises transmit event(s). -/
def telnet_command (E : Env) (fuel : Nat) (d : Descriptor) (w : World) (call : TelnetCall) :
    Option (Descriptor × World) :=
  telnet_transmit E fuel (E.telnet_tx w.trace.length call) d
    (w.emit (Effect.telnet d.fd call))

/-- descriptor_append (lines 402-409), for a msg that is not NULL: msg holds the
bytes of the C string, which are the strlen(msg) bytes line 407 sends. -/
def descriptor_append (E : Env) (fuel : Nat) (d : Descriptor) (w : World) (msg : List Byte) :
    Option (Descriptor × World) :=
  let first :=
    if d.needs_newline then
      match telnet_command E fuel d w (TelnetCall.send [13, 10]) with
      | none => none
      | some (d1, w1) => some ({ d1 with needs_newline := false }, w1)
    else some (d, w)
  match first with
  | none => none
  | some (d1, w1) =>
    match telnet_command E fuel d1 w1 (TelnetCall.send msg) with
    | none => none
    | some (d2, w2) => some ({ d2 with needs_prompt := true }, w2)

/-- The text "Input queue full. Command discarded.\r\n" (line 154). -/
def queue_full_notice : List Byte :=
  [73, 110, 112, 117, 116, 32, 113, 117, 101, 117, 101, 32, 102, 117, 108, 108, 46, 32,
   67, 111, 109, 109, 97, 110, 100, 32, 100, 105, 115, 99, 97, 114, 100, 101, 100, 46, 13, 10]

/-- The text "Input line too long. Command truncated.\r\n" (line 164). -/
def line_too_long_notice : List Byte :=
  [73, 110, 112, 117, 116, 32, 108, 105, 110, 101, 32, 116, 111, 111, 32, 108, 111, 110, 103,
   46, 32, 67, 111, 109, 109, 97, 110, 100, 32, 116, 114, 117, 110, 99, 97, 116, 101, 100, 46,
   13, 10]

/-- The body of the for loop of descriptor_handle_input (lines 146-166), for
the byte c = data[i]. The bytes 13, 10 and 8 are CR, LF and backspace. -/
def descriptor_handle_input_byte (E : Env) (fuel : Nat) (d : Descriptor) (w : World)
    (c : Byte) : Option (Descriptor × World) :=
  if c = 13 then some (d, w)
  else if c = 10 then
    let d1 := { d with needs_newline := false, skip_until_newline := false }
    let r := queue_push_back_len d1.command_queue d1.line_buffer.data
    let d2 := { d1 with command_queue := r.1 }
    let pushed :=
      if r.2 then some (d2, w) else descriptor_append E fuel d2 w queue_full_notice
    match pushed with
    | none => none
    | some (d3, w3) => some ({ d3 with line_buffer := buffer_clear d3.line_buffer }, w3)
  else if d.skip_until_newline then some (d, w)
  else if c = 8 then some ({ d with line_buffer := buffer_backspace d.line_buffer }, w)
  else
    let r := buffer_append_c d.line_buffer c
    if r.2 then some ({ d with line_buffer := r.1 }, w)
    else
      match descriptor_append E fuel { d with line_buffer := r.1 } w line_too_long_notice with
      | none => none
      | some (d1, w1) => some ({ d1 with skip_until_newline := true }, w1)

/-- descriptor_handle_input (lines 142-168): the for loop over data. -/
def descriptor_handle_input (E : Env) (fuel : Nat) :
    Descriptor → World → List Byte → Option (Descriptor × World)
  | d, w, [] => some (d, w)
  | d, w, c :: rest =>
    match descriptor_handle_input_byte E fuel d w c with
    | none => none
    | some (d1, w1) => descriptor_handle_input E fuel d1 w1 rest

/-- descriptor_disable_naws (lines 172-183). -/
def descriptor_disable_naws (E : Env) (fuel : Nat) (d : Descriptor) (w : World) :
    Option (Descriptor × World) :=
  telnet_command E fuel { d with width := none, height := none } w
    (TelnetCall.negotiate TelnetCmd.DONT Telopt.NAWS)

/-- The 16-bit load *(guint16* )p of the bytes b0 b1 at p, on a host of the
given byte order. -/
def load_guint16 (big_endian : Bool) (b0 b1 : Byte) : Nat :=
  if big_endian then (b0 % 256) * 256 + b1 % 256 else (b1 % 256) * 256 + b0 % 256

/-- The libc htons on a host of the given byte order. -/
def htons (big_endian : Bool) (x : Nat) : Nat :=
  if big_endian then x % 65536 else (x % 256) * 256 + (x / 256) % 256

/-- descriptor_on_telnet_event (lines 186-237). -/
def descriptor_on_telnet_event (E : Env) (fuel : Nat) (d : Descriptor) (w : World)
    (event : TelnetEvent) : Option (Descriptor × World) :=
  match event with
  | TelnetEvent.DATA buffer => descriptor_handle_input E fuel d w buffer
  | TelnetEvent.SEND buffer => descriptor_buffer_output E fuel d w buffer
  | TelnetEvent.DO opt =>
    if opt = Telopt.COMPRESS2 then telnet_command E fuel d w TelnetCall.begin_compress2
    else some (d, w)
  | TelnetEvent.WONT opt =>
    if opt = Telopt.NAWS then descriptor_disable_naws E fuel d w else some (d, w)
  | TelnetEvent.SUBNEGOTIATION opt buffer =>
    if opt = Telopt.NAWS then
      if buffer.length ≠ 4 then
        descriptor_disable_naws E fuel d (w.emit (Effect.log LogLine.warn_malformed_naws))
      else
        some ({ d with
                width := some (htons E.big_endian
                  (load_guint16 E.big_endian (buffer.getD 0 0) (buffer.getD 1 0))),
                height := some (htons E.big_endian
                  (load_guint16 E.big_endian (buffer.getD 2 0) (buffer.getD 3 0))) }, w)
    else some (d, w)
  | TelnetEvent.WARNING => some (d, w.emit (Effect.log LogLine.warn_libtelnet))
  | TelnetEvent.ERROR =>
    some (descriptor_close E d (w.emit (Effect.log LogLine.error_libtelnet)))
  | TelnetEvent.other => some (d, w)

/-- Modelled from the spec: telnet_recv of libtelnet. Section 6: feed(bytes)
raises zero or more events; each is handled by descriptor_on_telnet_event, in
order. -/
def telnet_dispatch (E : Env) (fuel : Nat) :
    List TelnetEvent → Descriptor → World → Option (Descriptor × World)
  | [], d, w => some (d, w)
  | event :: events, d, w =>
    match descriptor_on_telnet_event E fuel d w event with
    | none => none
    | some (d1, w1) => telnet_dispatch E fuel events d1 w1

/-- Modelled from the spec: telnet_recv of libtelnet, see telnet_dispatch. -/
def telnet_recv (E : Env) (fuel : Nat) (d : Descriptor) (w : World) (buf : List Byte) :
    Option (Descriptor × World) :=
  telnet_dispatch E fuel (E.telnet_rx w.trace.length buf) d
    (w.emit (Effect.telnet d.fd (TelnetCall.recv buf)))

/-- descriptor_do_recv (lines 105-124). Each iteration of the while loop makes
one recv call and takes one unit of the loop counter; fuel is for the loops
reached through telnet_recv. -/
def descriptor_do_recv (E : Env) (fuel : Nat) :
    Nat → Descriptor → World → Option (Descriptor × World)
  | 0, d, w => if descriptor_should_recv d then none else some (d, w)
  | n + 1, d, w =>
    if descriptor_should_recv d then
      let w1 : World := { w with recvs := w.recvs + 1 }
      match E.recv w.recvs with
      | RecvResult.EAGAIN => some (d, w1)
      | RecvResult.EINTR => descriptor_do_recv E fuel n d w1
      | RecvResult.failure =>
          some (descriptor_close E d (w1.emit (Effect.log LogLine.perror_recv)))
      | RecvResult.bytes data =>
          let buf := data.take RECV_BUFFER_SIZE
          if buf.length = 0 then some (descriptor_close E d w1)
          else
            match telnet_recv E fuel d w1 buf with
            | none => none
            | some (d2, w2) => descriptor_do_recv E fuel n d2 w2
    else some (d, w)

/-- Why a call did not return. -/
inductive Fault where
  /-- A loop did not end within the fuel. -/
  | stalled
  /-- The call strlen(NULL), made at the given history: undefined behaviour, on
  the usual platforms the process dies of a segmentation fault. -/
  | null_deref (w : World)
deriving DecidableEq, Repr

/-- The C string at a pointer to the given bytes followed by a NUL, as strlen
measures it: the bytes before the first NUL. -/
def c_string (bytes : List Byte) : List Byte :=
  bytes.takeWhile (fun c => c ≠ 0)

/-- descriptor_append (lines 402-409) called with msg == NULL: the pending line
break is sent, then line 407 evaluates strlen(msg) on the null pointer. -/
def descriptor_append_null (E : Env) (fuel : Nat) (d : Descriptor) (w : World) : Fault :=
  if d.needs_newline then
    match telnet_command E fuel d w (TelnetCall.send [13, 10]) with
    | none => Fault.stalled
    | some (_, w1) => Fault.null_deref w1
  else Fault.null_deref w

/-- descriptor_send_prompt (lines 240-263). The value of lua_tostring at line
257 is some text (the bytes of the Lua string) or none (NULL); descriptor_append
gets it as a C string and sends strlen(msg) bytes of it. -/
def descriptor_send_prompt (E : Env) (fuel : Nat) (d : Descriptor) (w : World) :
    Except Fault (Descriptor × World) :=
  let finish (text : Option (List Byte)) (w0 : World) : Except Fault (Descriptor × World) :=
    match text with
    | none => Except.error (descriptor_append_null E fuel d w0)
    | some t =>
      match descriptor_append E fuel d w0 (c_string t) with
      | none => Except.error Fault.stalled
      | some (d1, w1) =>
        match telnet_command E fuel { d1 with needs_prompt := false, needs_newline := true } w1
            (TelnetCall.iac TelnetCmd.GA) with
        | none => Except.error Fault.stalled
        | some r => Except.ok r
  match E.prompt w.trace.length with
  | PromptOutcome.static text => finish (some text) w
  | PromptOutcome.static_null => finish none w
  | PromptOutcome.returns text => finish (some text) (w.emit (Effect.prompt d.fd))
  | PromptOutcome.returns_null => finish none (w.emit (Effect.prompt d.fd))
  | PromptOutcome.raises =>
    Except.ok (descriptor_close E d
      ((w.emit (Effect.prompt d.fd)).emit (Effect.log LogLine.error_prompt_callback)))

/-! ## The registry -/

/-- The table descriptors (line 42): a GHashTable keyed by fd. Iteration order
of the hash table is the order of the list. -/
abbrev Registry := List Descriptor

/-- The keys of a hash table are distinct. -/
def Registry.wf (r : Registry) : Prop := (r.map Descriptor.fd).Nodup

/-- descriptor_get (lines 398-400). -/
def descriptor_get (r : Registry) (fd : Int) : Option Descriptor :=
  r.find? (fun d => d.fd = fd)

/-- descriptor_destroy (lines 53-65): the value destructor of the table. -/
def descriptor_destroy (E : Env) (d : Descriptor) (w : World) : World :=
  (descriptor_close E d w).2.emit (Effect.destroy d.fd)

/-- The fields descriptor_new_fd gives a new struct descriptor (lines 277-308). -/
def descriptor_fresh (fd : Int) : Descriptor :=
  { fd := fd,
    state := DescriptorState.OPEN,
    skip_until_newline := false,
    needs_prompt := true,
    needs_newline := false,
    self_delayed := false,
    delay_end := { tv_sec := 0, tv_usec := 0 },
    line_buffer := buffer_new LINE_BUFFER_SIZE,
    output_buffer := buffer_new OUTPUT_BUFFER_SIZE,
    command_queue := queue_new COMMAND_QUEUE_SIZE,
    width := none,
    height := none }

/-- descriptor_remove_closed (lines 317-328). -/
def descriptor_remove_closed (E : Env) : Registry → World → Registry × World
  | [], w => ([], w)
  | d :: rest, w =>
    let p :=
      if d.state = DescriptorState.DRAINING ∧ d.output_buffer.used = 0 then
        descriptor_close E d w
      else (d, w)
    if p.1.state = DescriptorState.CLOSED then
      descriptor_remove_closed E rest (descriptor_destroy E p.1 p.2)
    else
      let q := descriptor_remove_closed E rest p.2
      (p.1 :: q.1, q.2)

/-- descriptor_handle_commands (lines 364-374). lua_descriptor_command belongs
to the scripting layer; the call is recorded. -/
def descriptor_handle_commands : Registry → World → Registry × World
  | [], w => ([], w)
  | d :: rest, w =>
    if d.state = DescriptorState.OPEN ∧ d.command_queue.used > 0 then
      let r := queue_pop_front d.command_queue
      let d1 := { d with needs_prompt := true, command_queue := r.1 }
      let q := descriptor_handle_commands rest (w.emit (Effect.command d.fd r.2))
      (d1 :: q.1, q.2)
    else
      let q := descriptor_handle_commands rest w
      (d :: q.1, q.2)

/-- descriptor_handle_delays (lines 376-387). lua_descriptor_resume belongs to
the scripting layer; the call is recorded. -/
def descriptor_handle_delays (start : Timeval) : Registry → World → Registry × World
  | [], w => ([], w)
  | d :: rest, w =>
    if d.state = DescriptorState.DELAYING ∧ timeval_compare start d.delay_end > 0 then
      let d1 := { d with state := DescriptorState.OPEN }
      if d1.self_delayed then
        let q := descriptor_handle_delays start rest (w.emit (Effect.resume d.fd))
        ({ d1 with self_delayed := false } :: q.1, q.2)
      else
        let q := descriptor_handle_delays start rest w
        (d1 :: q.1, q.2)
    else
      let q := descriptor_handle_delays start rest w
      (d :: q.1, q.2)

/-- descriptor_send_prompts (lines 389-396). A call of descriptor_send_prompt
that does not return ends the phase. -/
def descriptor_send_prompts (E : Env) (fuel : Nat) :
    Registry → World → Except Fault (Registry × World)
  | [], w => Except.ok ([], w)
  | d :: rest, w =>
    let first :=
      if d.needs_prompt ∧ d.state = DescriptorState.OPEN then descriptor_send_prompt E fuel d w
      else Except.ok (d, w)
    match first with
    | Except.error f => Except.error f
    | Except.ok (d1, w1) =>
      match descriptor_send_prompts E fuel rest w1 with
      | Except.error f => Except.error f
      | Except.ok (r, w2) => Except.ok (d1 :: r, w2)

/-- A zmq_pollitem_t: events holds the three interest flags. -/
structure PollItem where
  fd : Int
  pollerr : Bool
  pollin : Bool
  pollout : Bool
deriving DecidableEq, Repr

/-- descriptor_add_pollitems (lines 330-340): the loop appends one item for
each connection of the table to the array. -/
def descriptor_add_pollitems : Registry → List PollItem → List PollItem
  | [], pollitems => pollitems
  | d :: rest, pollitems =>
    descriptor_add_pollitems rest
      (pollitems ++
        [{ fd := d.fd, pollerr := true, pollin := descriptor_should_recv d,
           pollout := descriptor_should_send d }])

/-- descriptor_delay (lines 433-451). The descriptor pointer may be NULL; the
duration is in microseconds (see timeval_add_delay); gettimeofday reads the
clock of the environment. -/
def descriptor_delay (E : Env) (d : Option Descriptor) (delay : Int) (w : World) :
    Option Descriptor × World :=
  match d with
  | none => (none, w.emit (Effect.log LogLine.warn_delay_nonexistent))
  | some d =>
    if d.state ≠ DescriptorState.OPEN ∧ d.state ≠ DescriptorState.DELAYING then (some d, w)
    else if delay < 0 then (some d, w.emit (Effect.log LogLine.warn_delay_negative))
    else
      let d1 :=
        if d.state = DescriptorState.OPEN then
          { d with delay_end := E.clock w.trace.length, state := DescriptorState.DELAYING }
        else d
      (some { d1 with delay_end := timeval_add_delay d1.delay_end delay }, w)

/-- descriptor_drain (lines 453-455). -/
def descriptor_drain (d : Descriptor) : Descriptor :=
  { d with state := DescriptorState.DRAINING }

/-- descriptor_will_echo (lines 457-461). -/
def descriptor_will_echo (E : Env) (fuel : Nat) (d : Descriptor) (w : World) (will : Bool) :
    Option (Descriptor × World) :=
  telnet_command E fuel d w
    (TelnetCall.negotiate (if will then TelnetCmd.WILL else TelnetCmd.WONT) Telopt.ECHO)


/-! ## Observations on a run, and concrete environments -/

/-- The bytes the socket of fd accepted, in order. -/
def sent_bytes (fd : Int) : List Effect → List Byte
  | [] => []
  | Effect.sent fd1 bytes :: rest =>
    if fd1 = fd then bytes ++ sent_bytes fd rest else sent_bytes fd rest
  | _ :: rest => sent_bytes fd rest

/-- Total number of bytes in the transmit events a telnet command raises. -/
def tx_len (E : Env) (i : Nat) (call : TelnetCall) : Nat :=
  ((E.telnet_tx i call).map List.length).sum

/-- Successive calls of descriptor_handle_input, one per received chunk. -/
def feed_chunks (E : Env) (fuel : Nat) :
    Descriptor → World → List (List Byte) → Option (Descriptor × World)
  | d, w, [] => some (d, w)
  | d, w, chunk :: chunks =>
    match descriptor_handle_input E fuel d w chunk with
    | none => none
    | some (d1, w1) => feed_chunks E fuel d1 w1 chunks

/-- A byte that is neither backspace, line feed nor carriage return. -/
def ordinary (c : Byte) : Prop := c ≠ 8 ∧ c ≠ 10 ∧ c ≠ 13

instance : DecidablePred ordinary := fun c => by unfold ordinary; infer_instance

/-- The wire form of a sequence of lines: each followed by a line feed. -/
def encode_lines (lines : List (List Byte)) : List Byte :=
  (lines.map (fun l => l ++ [10])).flatten

/-- The connection record after the given complete lines were queued. -/
def queue_lines (d : Descriptor) (lines : List (List Byte)) : Descriptor :=
  match lines with
  | [] => d
  | _ :: _ =>
    { d with
      needs_newline := false,
      skip_until_newline := false,
      command_queue := { d.command_queue with items := d.command_queue.items ++ lines },
      line_buffer := { d.line_buffer with data := [] } }

/-- A new connection whose output buffer is full of unsent bytes. -/
def descriptor_crowded (fd : Int) : Descriptor :=
  { descriptor_fresh fd with
    output_buffer := { size := OUTPUT_BUFFER_SIZE, data := List.replicate OUTPUT_BUFFER_SIZE 0 } }

/-- How many times the on_close hook was invoked for fd. -/
def hook_calls (fd : Int) (trace : List Effect) : Nat := trace.count (Effect.on_close fd)

/-- How many times the socket fd was released. -/
def socket_closes (fd : Int) (trace : List Effect) : Nat := trace.count (Effect.socket_close fd)

/-- The command descriptor_handle_commands hands to the executor for a
connection: the oldest queued line of an OPEN connection, if there is one. -/
def dispatched (d : Descriptor) : Option Effect :=
  if d.state = DescriptorState.OPEN then
    d.command_queue.items.head?.map (Effect.command d.fd)
  else none

/-- The connection record after descriptor_handle_commands has visited it. -/
def after_dispatch (d : Descriptor) : Descriptor :=
  if d.state = DescriptorState.OPEN ∧ d.command_queue.used > 0 then
    { d with
      needs_prompt := true,
      command_queue := { d.command_queue with items := d.command_queue.items.tail } }
  else d

/-- The test of descriptor_remove_closed: the connection is CLOSED, or
DRAINING with an empty output buffer. -/
def reaped (d : Descriptor) : Bool :=
  d.state = DescriptorState.CLOSED ∨
    (d.state = DescriptorState.DRAINING ∧ d.output_buffer.used = 0)

/-- The calls made into the telnet engine, in order, with the handle of the
connection. -/
def telnet_calls : List Effect → List (Int × TelnetCall)
  | [] => []
  | Effect.telnet fd call :: rest => (fd, call) :: telnet_calls rest
  | _ :: rest => telnet_calls rest

/-- The fields of a connection record that the output path (descriptor_do_send,
descriptor_buffer_output, descriptor_close) never writes: all but state and
output_buffer. -/
def input_side (d : Descriptor) :
    Int × Bool × Bool × Bool × Bool × Timeval × Buffer × Queue × Option Nat × Option Nat :=
  (d.fd, d.skip_until_newline, d.needs_prompt, d.needs_newline, d.self_delayed, d.delay_end,
    d.line_buffer, d.command_queue, d.width, d.height)

/-- An environment whose socket never accepts anything, whose telnet engine
transmits text verbatim, and whose hooks return. -/
def env_quiet : Env :=
  { send := fun _ => SendResult.EAGAIN,
    recv := fun _ => RecvResult.EAGAIN,
    on_close := fun _ => HookOutcome.ok,
    prompt := fun _ => PromptOutcome.static [],
    telnet_tx := fun _ call =>
      match call with
      | TelnetCall.send text => [text]
      | _ => [],
    telnet_rx := fun _ _ => [],
    clock := fun _ => { tv_sec := 0, tv_usec := 0 },
    telnet_init_ok := fun _ => true,
    big_endian := false }

/-- As env_quiet, with a socket that takes all it is offered. -/
def env_ready : Env := { env_quiet with send := fun _ => SendResult.accepts 4096 }

/-- As env_quiet, with a socket whose peer has reset the connection. -/
def env_reset : Env := { env_quiet with send := fun _ => SendResult.ECONNRESET }

/-- As env_quiet, with an on_close hook that raises. -/
def env_faulty_hook : Env := { env_quiet with on_close := fun _ => HookOutcome.raises }

/-- As env_quiet, with a peer that has closed its end: recv returns 0. -/
def env_eof : Env := { env_quiet with recv := fun _ => RecvResult.bytes [] }

/-- The empty history. -/
def world0 : World := { trace := [], sends := 0, recvs := 0 }

/-- As env_quiet, on a big-endian host. -/
def env_big_endian : Env := { env_quiet with big_endian := true }

/-- The poll item descriptor_add_pollitems appends for a connection. -/
def poll_interest (d : Descriptor) : PollItem :=
  { fd := d.fd, pollerr := true, pollin := descriptor_should_recv d,
    pollout := descriptor_should_send d }

/-- The test of descriptor_handle_delays: the connection is DELAYING and its
deadline lies strictly before start. -/
def expired (start : Timeval) (d : Descriptor) : Prop :=
  d.state = DescriptorState.DELAYING ∧ d.delay_end.micros < start.micros

instance (start : Timeval) : DecidablePred (expired start) :=
  fun d => by unfold expired; infer_instance

/-- The resume callback descriptor_handle_delays makes for a connection, if
any. -/
def resumed (start : Timeval) (d : Descriptor) : Option Effect :=
  if expired start d ∧ d.self_delayed = true then some (Effect.resume d.fd) else none

/-- The effects of the socket level: what descriptor_do_send and
descriptor_close do to the outside. -/
def output_effect : Effect → Bool
  | Effect.sent _ _ => true
  | Effect.socket_close _ => true
  | Effect.on_close _ => true
  | Effect.log (LogLine.debug_sent _) => true
  | Effect.log LogLine.perror_send => true
  | Effect.log LogLine.error_on_close => true
  | _ => false

/-- The history without the effects of the socket level. -/
def core_effects (trace : List Effect) : List Effect :=
  trace.filter (fun e => ! output_effect e)

/-- Bounds on the input side of a connection: the line buffer, of capacity
lsize, is not over-full and holds ordinary bytes only; the command queue, of
capacity qsize, is not over-full and each queued line is no longer than lsize
and holds ordinary bytes only. -/
def input_bounds (lsize qsize : Nat) (d : Descriptor) : Prop :=
  d.line_buffer.size = lsize ∧ d.command_queue.size = qsize ∧
  d.line_buffer.used ≤ lsize ∧ (∀ c ∈ d.line_buffer.data, ordinary c) ∧
  d.command_queue.used ≤ qsize ∧
  ∀ l ∈ d.command_queue.items, l.length ≤ lsize ∧ ∀ c ∈ l, ordinary c

/-- As env_quiet, with a telnet engine that transmits the three bytes of a
DONT NAWS negotiation for every command. -/
def env_wire : Env := { env_quiet with telnet_tx := fun _ _ => [[255, 254, 31]] }

/-- As env_wire, with a socket whose peer has reset the connection. -/
def env_reset_wire : Env := { env_wire with send := fun _ => SendResult.ECONNRESET }

/-- As env_quiet, with a socket that reports would-block three times and then
a reset connection. -/
def env_stubborn : Env :=
  { env_quiet with
    send := fun i => if i < 3 then SendResult.EAGAIN else SendResult.ECONNRESET }

/-- A telnet engine that transmits text verbatim, a go-ahead as IAC GA
(255, 249), and nothing for the other commands. -/
def tx_plain (call : TelnetCall) : List (List Byte) :=
  match call with
  | TelnetCall.send text => [text]
  | TelnetCall.iac TelnetCmd.GA => [[255, 249]]
  | _ => []

/-- As env_quiet, with the engine tx_plain and a prompt callback that returns
the given value: the bytes of a string, or none for a value that is no string
(nil, as when the function returns nothing). -/
def env_prompt (value : Option (List Byte)) : Env :=
  { env_quiet with
    telnet_tx := fun _ call => tx_plain call,
    prompt := fun _ =>
      match value with
      | some text => PromptOutcome.returns text
      | none => PromptOutcome.returns_null }

/-- As env_quiet, with the engine tx_plain and a connection table that has no
prompt field: the lookup gives nil, which is no function. -/
def env_no_prompt : Env :=
  { env_quiet with
    telnet_tx := fun _ call => tx_plain call,
    prompt := fun _ => PromptOutcome.static_null }

/-- A socket that never stalls: every send takes all it is offered from an
output buffer of the given capacity. -/
def socket_ready (E : Env) (size : Nat) : Prop :=
  ∀ i, ∃ room, size ≤ room ∧ E.send i = SendResult.accepts room

/-- The output buffer has the given capacity and is not over-full. -/
def output_bounds (size : Nat) (d : Descriptor) : Prop :=
  d.output_buffer.size = size ∧ d.output_buffer.used ≤ size

/-! ## Lemmas on the output path -/

theorem do_send_idle (E : Env) (fuel : Nat) (d : Descriptor) (w : World)
    (h : descriptor_should_send d = false) : descriptor_do_send E fuel d w = some (d, w) := by
  cases fuel <;> simp [descriptor_do_send, h]

theorem buffer_output_full_drain (E : Env) (fuel : Nat) (d : Descriptor) (w : World)
    (data : List Byte) (room : Nat)
    (hst : d.state ≠ DescriptorState.CLOSED)
    (hsz : 0 < d.output_buffer.size)
    (hused : d.output_buffer.used ≤ d.output_buffer.size)
    (hlen : d.output_buffer.size - d.output_buffer.used < data.length)
    (hsend : E.send w.sends = SendResult.accepts room)
    (hroom : d.output_buffer.size ≤ room) :
    descriptor_buffer_output E (fuel + 1) d w data =
      some ({ d with output_buffer := { d.output_buffer with data := [] } },
        { w with
          trace := w.trace ++
            [Effect.sent d.fd
               (d.output_buffer.data ++ data.take (d.output_buffer.size - d.output_buffer.used)),
             Effect.log (LogLine.debug_sent d.output_buffer.size)],
          sends := w.sends + 1 }) := by
  obtain ⟨fd, st, skip, np, nn, sd, de, lb, ⟨size, B⟩, cq, wd, ht⟩ := d
  simp only [Buffer.used] at *
  have h1 : min data.length (size - B.length) = size - B.length := by omega
  have h2 : (B ++ List.take (size - B.length) data).length = size := by
    simp [List.length_take]; omega
  have h3 : 0 < (List.drop (size - B.length) data).length := by
    simp [List.length_drop]; omega
  have h4 : min room size = size := by omega
  have h5 : List.drop size (B ++ List.take (size - B.length) data) = [] :=
    List.drop_eq_nil_of_le (by omega)
  have h6 : List.take size (B ++ List.take (size - B.length) data)
      = B ++ List.take (size - B.length) data := List.take_of_length_le (by omega)
  have h7 : descriptor_should_send
      { fd := fd, state := st, skip_until_newline := skip, needs_prompt := np,
        needs_newline := nn, self_delayed := sd, delay_end := de, line_buffer := lb,
        output_buffer := { size := size, data := [] }, command_queue := cq, width := wd,
        height := ht } = false := by
    simp [descriptor_should_send, Buffer.used]
  have h8 : descriptor_should_send
      { fd := fd, state := st, skip_until_newline := skip, needs_prompt := np,
        needs_newline := nn, self_delayed := sd, delay_end := de, line_buffer := lb,
        output_buffer := { size := size, data := B ++ List.take (size - B.length) data },
        command_queue := cq, width := wd, height := ht } = true := by
    simp only [descriptor_should_send, Buffer.used, h2]
    simp [hst, hsz]
  simp only [descriptor_buffer_output, descriptor_buffer_output_loop, buffer_append, Buffer.used,
    h1, h3, descriptor_do_send, h8, hsend, h2, buffer_drain, World.emit, h4, h5, h6,
    do_send_idle, h7]
  simp [h7]

/-- Data that fits in the free space of the output buffer is appended to it,
and the socket is not touched. -/
theorem buffer_output_fits (E : Env) (fuel : Nat) (d : Descriptor) (w : World)
    (data : List Byte) (h : d.output_buffer.used + data.length ≤ d.output_buffer.size) :
    descriptor_buffer_output E fuel d w data =
      some ({ d with
              output_buffer :=
                { d.output_buffer with data := d.output_buffer.data ++ data } }, w) := by
  have h1 : min data.length (d.output_buffer.size - d.output_buffer.used) = data.length := by
    omega
  simp only [descriptor_buffer_output, buffer_append, h1, List.take_length, List.drop_length]
  cases fuel <;> simp [descriptor_buffer_output_loop]

theorem telnet_transmit_fits (E : Env) (fuel : Nat) (chunks : List (List Byte)) :
    ∀ (d : Descriptor) (w : World),
      d.output_buffer.used + (chunks.map List.length).sum ≤ d.output_buffer.size →
      telnet_transmit E fuel chunks d w =
        some ({ d with
                output_buffer :=
                  { d.output_buffer with data := d.output_buffer.data ++ chunks.flatten } },
          w) := by
  induction chunks with
  | nil => intro d w _; simp [telnet_transmit]
  | cons chunk rest ih =>
    intro d w h
    simp only [List.map_cons, List.sum_cons] at h
    rw [telnet_transmit, buffer_output_fits E fuel d w chunk (by omega)]
    simp only []
    rw [ih { d with
             output_buffer :=
               { d.output_buffer with data := d.output_buffer.data ++ chunk } } w
      (by simp only [Buffer.used, List.length_append] at h ⊢; omega)]
    simp

/-- A telnet command whose transmit events fit in the free space of the output
buffer appends their bytes to it; the only effect is the call itself. -/
theorem telnet_command_fits (E : Env) (fuel : Nat) (d : Descriptor) (w : World)
    (call : TelnetCall)
    (h : d.output_buffer.used + tx_len E w.trace.length call ≤ d.output_buffer.size) :
    telnet_command E fuel d w call =
      some ({ d with
              output_buffer :=
                { d.output_buffer with
                  data := d.output_buffer.data ++ (E.telnet_tx w.trace.length call).flatten } },
        w.emit (Effect.telnet d.fd call)) := by
  rw [telnet_command, telnet_transmit_fits E fuel _ d _ h]

/-- descriptor_append with no line break pending and a text whose wire bytes
fit in the free space of the output buffer. -/
theorem descriptor_append_fits (E : Env) (fuel : Nat) (d : Descriptor) (w : World)
    (msg : List Byte) (hnn : d.needs_newline = false)
    (h : d.output_buffer.used + tx_len E w.trace.length (TelnetCall.send msg)
      ≤ d.output_buffer.size) :
    descriptor_append E fuel d w msg =
      some ({ d with
              needs_prompt := true,
              output_buffer :=
                { d.output_buffer with
                  data := d.output_buffer.data ++
                    (E.telnet_tx w.trace.length (TelnetCall.send msg)).flatten } },
        w.emit (Effect.telnet d.fd (TelnetCall.send msg))) := by
  simp [descriptor_append, hnn, telnet_command_fits E fuel d w _ h]

/-- With a full output buffer and a peer that has reset the connection, the
flush that descriptor_buffer_output attempts closes the connection. -/
theorem buffer_output_full_reset (E : Env) (fuel : Nat) (d : Descriptor) (w : World)
    (data : List Byte)
    (hst : d.state ≠ DescriptorState.CLOSED)
    (hfull : d.output_buffer.used = d.output_buffer.size)
    (hsz : 0 < d.output_buffer.size)
    (hdata : 0 < data.length)
    (hsend : E.send w.sends = SendResult.ECONNRESET) :
    descriptor_buffer_output E (fuel + 1) d w data =
      some (descriptor_close E d { w with sends := w.sends + 1 }) := by
  obtain ⟨fd, st, skip, np, nn, sd, de, lb, ⟨size, B⟩, cq, wd, ht⟩ := d
  simp only [Buffer.used] at *
  have h1 : min data.length (size - B.length) = 0 := by omega
  have h2 : descriptor_should_send
      { fd := fd, state := st, skip_until_newline := skip, needs_prompt := np,
        needs_newline := nn, self_delayed := sd, delay_end := de, line_buffer := lb,
        output_buffer := { size := size, data := B }, command_queue := cq, width := wd,
        height := ht } = true := by
    simp only [descriptor_should_send, Buffer.used, hfull]
    simp [hst, hsz]
  simp only [descriptor_buffer_output, descriptor_buffer_output_loop, buffer_append, Buffer.used,
    h1, List.take_zero, List.append_nil, List.drop_zero, hdata, if_true, descriptor_do_send, h2,
    hsend]
  simp [descriptor_close, hst, descriptor_should_send]

/-! ## What the output path leaves alone -/

theorem telnet_calls_append (a b : List Effect) :
    telnet_calls (a ++ b) = telnet_calls a ++ telnet_calls b := by
  induction a with
  | nil => rfl
  | cons e rest ih => cases e <;> simp [telnet_calls, ih]

theorem close_frame (E : Env) (d : Descriptor) (w : World) :
    input_side (descriptor_close E d w).1 = input_side d ∧
    telnet_calls (descriptor_close E d w).2.trace = telnet_calls w.trace := by
  by_cases h : d.state = DescriptorState.CLOSED
  · simp [descriptor_close, h]
  · cases hk : E.on_close w.trace.length <;>
      simp [descriptor_close, h, hk, World.emit, input_side, telnet_calls_append, telnet_calls]

theorem do_send_frame (E : Env) (fuel : Nat) :
    ∀ (d : Descriptor) (w : World) (d1 : Descriptor) (w1 : World),
      descriptor_do_send E fuel d w = some (d1, w1) →
      input_side d1 = input_side d ∧ telnet_calls w1.trace = telnet_calls w.trace := by
  induction fuel with
  | zero =>
    intro d w d1 w1 h
    by_cases hs : descriptor_should_send d = true
    · simp [descriptor_do_send, hs] at h
    · simp only [descriptor_do_send, hs] at h
      simp only [Bool.false_eq_true, if_false, Option.some.injEq, Prod.mk.injEq] at h
      obtain ⟨rfl, rfl⟩ := h
      exact ⟨rfl, rfl⟩
  | succ n ih =>
    intro d w d1 w1 h
    by_cases hs : descriptor_should_send d = true
    · simp only [descriptor_do_send, hs, if_true] at h
      cases hr : E.send w.sends with
      | EAGAIN =>
        simp only [hr, Option.some.injEq, Prod.mk.injEq] at h
        obtain ⟨rfl, rfl⟩ := h
        exact ⟨rfl, rfl⟩
      | EINTR =>
        simp only [hr] at h
        have := ih _ _ _ _ h
        exact this
      | ECONNRESET =>
        simp only [hr, Option.some.injEq] at h
        have := close_frame E d { w with sends := w.sends + 1 }
        rw [h] at this
        exact this
      | failure =>
        simp only [hr, Option.some.injEq] at h
        have := close_frame E d ({ w with sends := w.sends + 1 }.emit
          (Effect.log LogLine.perror_send))
        rw [h] at this
        simpa [World.emit, telnet_calls_append, telnet_calls] using this
      | accepts room =>
        simp only [hr] at h
        have := ih _ _ _ _ h
        simpa [World.emit, telnet_calls_append, telnet_calls, input_side] using this
    · simp only [descriptor_do_send, hs] at h
      simp only [Bool.false_eq_true, if_false, Option.some.injEq, Prod.mk.injEq] at h
      obtain ⟨rfl, rfl⟩ := h
      exact ⟨rfl, rfl⟩

theorem buffer_output_loop_frame (E : Env) (fuel n : Nat) :
    ∀ (d : Descriptor) (w : World) (rest : List Byte) (d1 : Descriptor) (w1 : World),
      descriptor_buffer_output_loop E fuel n d w rest = some (d1, w1) →
      input_side d1 = input_side d ∧ telnet_calls w1.trace = telnet_calls w.trace := by
  induction n with
  | zero =>
    intro d w rest d1 w1 h
    by_cases hr : rest.length > 0
    · simp [descriptor_buffer_output_loop, hr] at h
    · simp only [descriptor_buffer_output_loop, hr, if_false, Option.some.injEq,
        Prod.mk.injEq] at h
      obtain ⟨rfl, rfl⟩ := h
      exact ⟨rfl, rfl⟩
  | succ n ih =>
    intro d w rest d1 w1 h
    by_cases hr : rest.length > 0
    · simp only [descriptor_buffer_output_loop, hr, if_true] at h
      cases hs : descriptor_do_send E fuel d w with
      | none => simp [hs] at h
      | some p =>
        obtain ⟨d2, w2⟩ := p
        have h2 := do_send_frame E fuel d w d2 w2 hs
        simp only [hs] at h
        by_cases hss : descriptor_should_send d2 = true
        · simp only [hss, not_true_eq_false, if_false] at h
          have h3 := ih _ _ _ _ _ h
          exact ⟨by rw [h3.1, ← h2.1]; rfl, by rw [h3.2, h2.2]⟩
        · simp only [hss, not_false_eq_true, if_true, Option.some.injEq, Prod.mk.injEq] at h
          obtain ⟨rfl, rfl⟩ := h
          exact h2
    · simp only [descriptor_buffer_output_loop, hr, if_false, Option.some.injEq,
        Prod.mk.injEq] at h
      obtain ⟨rfl, rfl⟩ := h
      exact ⟨rfl, rfl⟩

/-- descriptor_buffer_output writes only state and output_buffer and makes no
call into the telnet engine. -/
theorem buffer_output_frame (E : Env) (fuel : Nat) (d : Descriptor) (w : World)
    (data : List Byte) (d1 : Descriptor) (w1 : World)
    (h : descriptor_buffer_output E fuel d w data = some (d1, w1)) :
    input_side d1 = input_side d ∧ telnet_calls w1.trace = telnet_calls w.trace := by
  have := buffer_output_loop_frame E fuel fuel _ _ _ _ _ h
  exact ⟨by rw [this.1]; rfl, this.2⟩

theorem telnet_transmit_frame (E : Env) (fuel : Nat) (chunks : List (List Byte)) :
    ∀ (d : Descriptor) (w : World) (d1 : Descriptor) (w1 : World),
      telnet_transmit E fuel chunks d w = some (d1, w1) →
      input_side d1 = input_side d ∧ telnet_calls w1.trace = telnet_calls w.trace := by
  induction chunks with
  | nil =>
    intro d w d1 w1 h
    simp only [telnet_transmit, Option.some.injEq, Prod.mk.injEq] at h
    obtain ⟨rfl, rfl⟩ := h
    exact ⟨rfl, rfl⟩
  | cons chunk rest ih =>
    intro d w d1 w1 h
    simp only [telnet_transmit] at h
    cases hb : descriptor_buffer_output E fuel d w chunk with
    | none => simp [hb] at h
    | some p =>
      obtain ⟨d2, w2⟩ := p
      simp only [hb] at h
      have h2 := buffer_output_frame E fuel d w chunk d2 w2 hb
      have h3 := ih _ _ _ _ h
      exact ⟨h3.1.trans h2.1, h3.2.trans h2.2⟩

/-- A telnet command writes only state and output_buffer, and the one call
into the telnet engine is the command itself. -/
theorem telnet_command_frame (E : Env) (fuel : Nat) (d : Descriptor) (w : World)
    (call : TelnetCall) (d1 : Descriptor) (w1 : World)
    (h : telnet_command E fuel d w call = some (d1, w1)) :
    input_side d1 = input_side d ∧
    telnet_calls w1.trace = telnet_calls w.trace ++ [(d.fd, call)] := by
  have := telnet_transmit_frame E fuel _ _ _ _ _ h
  exact ⟨this.1, by rw [this.2]; simp [World.emit, telnet_calls_append, telnet_calls]⟩

/-- descriptor_append with no line break pending: besides state and
output_buffer it writes only needs_prompt, and the one call into the telnet
engine is the telnet_send of the text. -/
theorem descriptor_append_frame (E : Env) (fuel : Nat) (d : Descriptor) (w : World)
    (msg : List Byte) (d1 : Descriptor) (w1 : World) (hnn : d.needs_newline = false)
    (h : descriptor_append E fuel d w msg = some (d1, w1)) :
    input_side d1 = input_side { d with needs_prompt := true } ∧
    telnet_calls w1.trace = telnet_calls w.trace ++ [(d.fd, TelnetCall.send msg)] := by
  simp only [descriptor_append, hnn, Bool.false_eq_true, if_false] at h
  cases hc : telnet_command E fuel d w (TelnetCall.send msg) with
  | none => simp [hc] at h
  | some p =>
    obtain ⟨d2, w2⟩ := p
    simp only [hc, Option.some.injEq, Prod.mk.injEq] at h
    obtain ⟨rfl, rfl⟩ := h
    have := telnet_command_frame E fuel d w _ d2 w2 hc
    refine ⟨?_, this.2⟩
    have h1 := this.1
    simp only [input_side, Prod.mk.injEq] at h1 ⊢
    simp [h1]

/-! ## C1 -/

/-- C1 (the code departs from the claim). On a new connection, whose output
buffer of capacity 4096 is empty, descriptor_buffer_output is given 5000 bytes
and the socket takes all it is offered. The call returns with the connection
still OPEN, 4096 bytes handed to the socket and an empty output buffer: the
last 904 bytes of data are neither sent nor retained. -/
theorem C1_buffer_output_drops_tail (fuel : Nat) :
    ∃ d w,
      descriptor_buffer_output env_ready (fuel + 1) (descriptor_fresh 3) world0
        (List.replicate 5000 65) = some (d, w) ∧
      d.state = DescriptorState.OPEN ∧
      d.output_buffer.data = [] ∧
      sent_bytes 3 w.trace = List.replicate 4096 65 ∧
      (sent_bytes 3 w.trace ++ d.output_buffer.data).length + 904 =
        (List.replicate 5000 65).length := by
  have h := buffer_output_full_drain env_ready fuel (descriptor_fresh 3) world0
    (List.replicate 5000 65) 4096 (by simp [descriptor_fresh])
    (by simp [descriptor_fresh, buffer_new, OUTPUT_BUFFER_SIZE])
    (by simp [descriptor_fresh, buffer_new, Buffer.used])
    (by
      simp only [descriptor_fresh, buffer_new, Buffer.used, OUTPUT_BUFFER_SIZE,
        List.length_replicate, List.length_nil]
      omega)
    rfl (by simp [descriptor_fresh, buffer_new, OUTPUT_BUFFER_SIZE])
  have ht : List.take 4096 (List.replicate 5000 65) = List.replicate 4096 65 := by
    rw [List.take_replicate]; rfl
  refine ⟨_, _, h, rfl, rfl, ?_, ?_⟩
  · simp only [sent_bytes, world0, descriptor_fresh, buffer_new, Buffer.used,
      OUTPUT_BUFFER_SIZE, List.nil_append, List.length_nil, Nat.sub_zero, ht, if_true,
      List.append_nil]
  · simp only [sent_bytes, world0, descriptor_fresh, buffer_new, Buffer.used,
      OUTPUT_BUFFER_SIZE, List.nil_append, List.length_nil, Nat.sub_zero, ht, if_true,
      List.append_nil, List.length_replicate]

/-! ## Lemmas on line assembly -/

theorem handle_input_append (E : Env) (fuel : Nat) (s1 s2 : List Byte) :
    ∀ (d : Descriptor) (w : World),
      descriptor_handle_input E fuel d w (s1 ++ s2) =
        match descriptor_handle_input E fuel d w s1 with
        | none => none
        | some (d1, w1) => descriptor_handle_input E fuel d1 w1 s2 := by
  induction s1 with
  | nil => intro d w; simp [descriptor_handle_input]
  | cons c rest ih =>
    intro d w
    simp only [List.cons_append, descriptor_handle_input]
    cases h : descriptor_handle_input_byte E fuel d w c with
    | none => simp
    | some p => obtain ⟨d1, w1⟩ := p; simp [ih]

theorem feed_chunks_flatten (E : Env) (fuel : Nat) (chunks : List (List Byte)) :
    ∀ (d : Descriptor) (w : World),
      feed_chunks E fuel d w chunks = descriptor_handle_input E fuel d w chunks.flatten := by
  induction chunks with
  | nil => intro d w; simp [feed_chunks, descriptor_handle_input]
  | cons chunk rest ih =>
    intro d w
    simp only [feed_chunks, List.flatten_cons, handle_input_append]
    cases h : descriptor_handle_input E fuel d w chunk with
    | none => simp
    | some p => obtain ⟨d1, w1⟩ := p; simp [ih]

/-- An ordinary byte is appended to a line buffer that has room. -/
theorem handle_input_byte_ordinary (E : Env) (fuel : Nat) (d : Descriptor) (w : World)
    (c : Byte) (hskip : d.skip_until_newline = false) (hc : c ≠ 8 ∧ c ≠ 10 ∧ c ≠ 13)
    (hlt : d.line_buffer.used < d.line_buffer.size) :
    descriptor_handle_input_byte E fuel d w c =
      some ({ d with line_buffer := { d.line_buffer with data := d.line_buffer.data ++ [c] } },
        w) := by
  simp [descriptor_handle_input_byte, hc.1, hc.2.1, hc.2.2, hskip, buffer_append_c, hlt]

/-- A carriage return is skipped. -/
theorem handle_input_cr (E : Env) (fuel : Nat) (d : Descriptor) (w : World)
    (rest : List Byte) :
    descriptor_handle_input E fuel d w (13 :: rest) = descriptor_handle_input E fuel d w rest := by
  simp [descriptor_handle_input, descriptor_handle_input_byte]

/-- A run of ordinary bytes that fits is appended to the line buffer. -/
theorem handle_input_ordinary (E : Env) (fuel : Nat) (l : List Byte) :
    ∀ (d : Descriptor) (w : World),
      d.skip_until_newline = false →
      (∀ c ∈ l, c ≠ 8 ∧ c ≠ 10 ∧ c ≠ 13) →
      d.line_buffer.used + l.length ≤ d.line_buffer.size →
      descriptor_handle_input E fuel d w l =
        some ({ d with line_buffer := { d.line_buffer with data := d.line_buffer.data ++ l } },
          w) := by
  induction l with
  | nil => intro d w _ _ _; simp [descriptor_handle_input]
  | cons c rest ih =>
    intro d w hskip hord hfit
    have hc := hord c (List.mem_cons_self _ _)
    simp only [List.length_cons] at hfit
    rw [descriptor_handle_input, handle_input_byte_ordinary E fuel d w c hskip hc (by omega)]
    simp only []
    rw [ih { d with line_buffer := { d.line_buffer with data := d.line_buffer.data ++ [c] } }
      w hskip (fun x hx => hord x (List.mem_cons_of_mem _ hx))
      (by simp only [Buffer.used, List.length_append, List.length_singleton] at hfit ⊢; omega)]
    simp

/-- A newline queues the line buffer when the queue has room. -/
theorem handle_input_newline (E : Env) (fuel : Nat) (d : Descriptor) (w : World)
    (rest : List Byte) (hroom : d.command_queue.used < d.command_queue.size) :
    descriptor_handle_input E fuel d w (10 :: rest) =
      descriptor_handle_input E fuel
        { d with
          needs_newline := false,
          skip_until_newline := false,
          command_queue :=
            { d.command_queue with items := d.command_queue.items ++ [d.line_buffer.data] },
          line_buffer := { d.line_buffer with data := [] } } w rest := by
  simp [descriptor_handle_input, descriptor_handle_input_byte, queue_push_back_len, hroom,
    buffer_clear]

/-! ## C2 -/

/-- C2. Feeding the chunks of any split of a byte sequence to
descriptor_handle_input one after another gives the same result (the whole
connection record and the whole history, or no return) as feeding the sequence
in one call. In particular, when the chunks make up "hello\r\n" and the
connection is at a line boundary (empty line buffer, not skipping, room in the
queue), as a new connection is, exactly one command is queued, and it is
"hello". -/
theorem C2_line_assembly_chunking (E : Env) (fuel : Nat) (d : Descriptor) (w : World)
    (chunks : List (List Byte)) :
    feed_chunks E fuel d w chunks = descriptor_handle_input E fuel d w chunks.flatten ∧
    (chunks.flatten = [104, 101, 108, 108, 111, 13, 10] →
      d.line_buffer.data = [] → 5 ≤ d.line_buffer.size →
      d.skip_until_newline = false →
      d.command_queue.used < d.command_queue.size →
      ∃ d1, feed_chunks E fuel d w chunks = some (d1, w) ∧
        d1.command_queue.items = d.command_queue.items ++ [[104, 101, 108, 108, 111]] ∧
        d1.line_buffer.data = [] ∧ d1.skip_until_newline = false) := by
  refine ⟨feed_chunks_flatten E fuel chunks d w, ?_⟩
  intro hs hlb hsz hskip hq
  rw [feed_chunks_flatten, hs]
  have e1 : ([104, 101, 108, 108, 111, 13, 10] : List Byte)
      = [104, 101, 108, 108, 111] ++ [13, 10] := rfl
  rw [e1, handle_input_append,
    handle_input_ordinary E fuel [104, 101, 108, 108, 111] d w hskip (by decide)
      (by simp only [Buffer.used, hlb, List.length_nil, List.length_cons]; omega)]
  simp only []
  rw [handle_input_cr, handle_input_newline _ _ _ _ _ (by simpa using hq)]
  exact ⟨_, rfl, by simp [hlb], rfl, rfl⟩

/-- C2 at a concrete split of "hello\r\n" into three chunks, on a new
connection: the queue holds the one command "hello". -/
theorem C2_line_assembly_chunking_witness :
    ∃ d1, feed_chunks env_quiet 0 (descriptor_fresh 3) world0
        [[104, 101], [108, 108, 111, 13], [10]] = some (d1, world0) ∧
      d1.command_queue.items = [[104, 101, 108, 108, 111]] ∧
      d1.line_buffer.data = [] ∧ d1.skip_until_newline = false :=
  (C2_line_assembly_chunking env_quiet 0 (descriptor_fresh 3) world0
    [[104, 101], [108, 108, 111, 13], [10]]).2 rfl rfl (by decide) rfl (by decide)

/-! ## Lemmas on whole lines -/

/-- A complete ordinary line that fits, arriving at a line boundary while the
queue has room, is queued verbatim. -/
theorem handle_input_line (E : Env) (fuel : Nat) (d : Descriptor) (w : World)
    (line rest : List Byte)
    (hlb : d.line_buffer.data = []) (hskip : d.skip_until_newline = false)
    (hord : ∀ c ∈ line, ordinary c) (hlen : line.length ≤ d.line_buffer.size)
    (hroom : d.command_queue.used < d.command_queue.size) :
    descriptor_handle_input E fuel d w (line ++ 10 :: rest) =
      descriptor_handle_input E fuel (queue_lines d [line]) w rest := by
  rw [handle_input_append, handle_input_ordinary E fuel line d w hskip hord
    (by simp only [Buffer.used, hlb, List.length_nil]; omega)]
  simp only []
  rw [handle_input_newline _ _ _ _ _ (by simpa using hroom)]
  simp [queue_lines, hlb]

theorem handle_input_lines (E : Env) (fuel : Nat) (lines : List (List Byte)) :
    ∀ (d : Descriptor) (w : World) (rest : List Byte),
      d.line_buffer.data = [] → d.skip_until_newline = false →
      (∀ l ∈ lines, l.length ≤ d.line_buffer.size ∧ ∀ c ∈ l, ordinary c) →
      d.command_queue.used + lines.length ≤ d.command_queue.size →
      descriptor_handle_input E fuel d w (encode_lines lines ++ rest) =
        descriptor_handle_input E fuel (queue_lines d lines) w rest := by
  induction lines with
  | nil => intro d w rest _ _ _ _; simp [encode_lines, queue_lines]
  | cons l ls ih =>
    intro d w rest hlb hskip hall hroom
    have hl := hall l (List.mem_cons_self _ _)
    simp only [List.length_cons] at hroom
    have e : encode_lines (l :: ls) ++ rest = l ++ 10 :: (encode_lines ls ++ rest) := by
      simp [encode_lines]
    rw [e, handle_input_line E fuel d w l _ hlb hskip hl.2 hl.1 (by omega)]
    rw [ih (queue_lines d [l]) w rest (by simp [queue_lines]) (by simp [queue_lines])
      (fun x hx => by simpa [queue_lines] using hall x (List.mem_cons_of_mem _ hx))
      (by simp only [queue_lines, Queue.used, List.length_append, List.length_singleton]
          simp only [Queue.used] at hroom
          omega)]
    cases ls with
    | nil => rfl
    | cons l2 ls2 => simp [queue_lines]

/-- A newline that finds the queue full hands the notice to descriptor_append
and clears the line buffer. -/
theorem handle_input_newline_full (E : Env) (fuel : Nat) (d : Descriptor) (w : World)
    (rest : List Byte) (hfull : ¬ d.command_queue.used < d.command_queue.size) :
    descriptor_handle_input E fuel d w (10 :: rest) =
      match descriptor_append E fuel
          { d with needs_newline := false, skip_until_newline := false } w
          queue_full_notice with
      | none => none
      | some (d3, w3) =>
        descriptor_handle_input E fuel
          { d3 with line_buffer := buffer_clear d3.line_buffer } w3 rest := by
  simp only [descriptor_handle_input, descriptor_handle_input_byte, queue_push_back_len, hfull]
  simp only [if_false, if_true]
  simp
  cases descriptor_append E fuel
    { d with needs_newline := false, skip_until_newline := false } w queue_full_notice with
  | none => rfl
  | some p => rfl

/-- In overflow-skip mode every byte up to the next line feed is discarded. -/
theorem handle_input_skip (E : Env) (fuel : Nat) (l : List Byte) :
    ∀ (d : Descriptor) (w : World) (rest : List Byte),
      d.skip_until_newline = true → (∀ c ∈ l, c ≠ 10) →
      descriptor_handle_input E fuel d w (l ++ rest) = descriptor_handle_input E fuel d w rest := by
  induction l with
  | nil => intro d w rest _ _; rfl
  | cons c tl ih =>
    intro d w rest hskip hall
    have hc : c ≠ 10 := hall c (List.mem_cons_self _ _)
    have hstep : descriptor_handle_input_byte E fuel d w c = some (d, w) := by
      by_cases h13 : c = 13
      · simp [descriptor_handle_input_byte, h13]
      · simp [descriptor_handle_input_byte, h13, hc, hskip]
    rw [List.cons_append, descriptor_handle_input, hstep]
    exact ih d w rest hskip (fun x hx => hall x (List.mem_cons_of_mem _ hx))

/-- An ordinary byte that finds the line buffer full hands the notice to
descriptor_append and enters overflow-skip mode. -/
theorem handle_input_overflow (E : Env) (fuel : Nat) (d : Descriptor) (w : World)
    (c : Byte) (rest : List Byte)
    (hskip : d.skip_until_newline = false) (hc : ordinary c)
    (hfull : ¬ d.line_buffer.used < d.line_buffer.size) :
    descriptor_handle_input E fuel d w (c :: rest) =
      match descriptor_append E fuel d w line_too_long_notice with
      | none => none
      | some (d1, w1) =>
        descriptor_handle_input E fuel { d1 with skip_until_newline := true } w1 rest := by
  obtain ⟨fd, st, skip, np, nn, sd, de, lb, ob, cq, wd, ht⟩ := d
  simp only at hskip hfull
  subst hskip
  simp only [descriptor_handle_input, descriptor_handle_input_byte, hc.1, hc.2.1, hc.2.2,
    buffer_append_c, hfull]
  simp only [if_false, Bool.false_eq_true]
  cases descriptor_append E fuel _ w line_too_long_notice with
  | none => rfl
  | some p => rfl

/-! ## C3 -/

/-- C3 (as amended). On a connection with an empty command queue of capacity
10, at a line boundary (empty line buffer, not skipping), feed eleven lines of
ordinary bytes, each no longer than the line buffer and each followed by a line
feed, in one call. Whenever the call returns, the queue holds the first ten
lines in arrival order, the line buffer is empty, and the only call into the
telnet engine was one telnet_send of "Input queue full. Command discarded." for
that connection. If the wire bytes of the notice fit in the free space of the
output buffer, the call does return, those bytes are appended to the output
buffer, nothing else happens to the outside, and the state is unchanged. -/
theorem C3_queue_overflow (E : Env) (fuel : Nat) (d : Descriptor) (w : World)
    (lines : List (List Byte))
    (hq : d.command_queue = queue_new COMMAND_QUEUE_SIZE)
    (hlb : d.line_buffer.data = []) (hskip : d.skip_until_newline = false)
    (hlen : lines.length = 11)
    (hall : ∀ l ∈ lines, l.length ≤ d.line_buffer.size ∧ ∀ c ∈ l, ordinary c) :
    (∀ d1 w1, descriptor_handle_input E fuel d w (encode_lines lines) = some (d1, w1) →
      d1.command_queue.items = lines.take 10 ∧
      d1.line_buffer.data = [] ∧
      telnet_calls w1.trace =
        telnet_calls w.trace ++ [(d.fd, TelnetCall.send queue_full_notice)]) ∧
    (d.output_buffer.used + tx_len E w.trace.length (TelnetCall.send queue_full_notice)
        ≤ d.output_buffer.size →
      ∃ d1,
        descriptor_handle_input E fuel d w (encode_lines lines) =
          some (d1, w.emit (Effect.telnet d.fd (TelnetCall.send queue_full_notice))) ∧
        d1.state = d.state ∧
        d1.output_buffer.data = d.output_buffer.data ++
          (E.telnet_tx w.trace.length (TelnetCall.send queue_full_notice)).flatten) := by
  have hdrop : (lines.drop 10).length = 1 := by simp [List.length_drop, hlen]
  obtain ⟨last, hlast⟩ := List.length_eq_one.mp hdrop
  have hsplit : lines = lines.take 10 ++ [last] := by
    rw [← hlast, List.take_append_drop]
  have htake : (lines.take 10).length = 10 := by simp [List.length_take, hlen]
  generalize lines.take 10 = first at hsplit htake ⊢
  subst hsplit
  have hord := hall last (by simp)
  have e : encode_lines (first ++ [last]) = encode_lines first ++ (last ++ [10]) := by
    simp [encode_lines]
  rw [e, handle_input_lines E fuel first d w _ hlb hskip
    (fun l hl => hall l (by simp [hl]))
    (by simp [hq, queue_new, Queue.used, COMMAND_QUEUE_SIZE, htake])]
  cases first with
  | nil => simp at htake
  | cons l0 ls =>
    rw [handle_input_append, handle_input_ordinary E fuel last _ w (by simp [queue_lines])
      hord.2 (by simpa [queue_lines, Buffer.used] using hord.1)]
    simp only []
    rw [handle_input_newline_full _ _ _ _ _
      (by simp [queue_lines, hq, queue_new, Queue.used, COMMAND_QUEUE_SIZE] at htake ⊢
          omega)]
    constructor
    · intro d1 w1 h
      cases ha : descriptor_append E fuel
          { ({ queue_lines d (l0 :: ls) with
               line_buffer :=
                 { (queue_lines d (l0 :: ls)).line_buffer with
                   data := (queue_lines d (l0 :: ls)).line_buffer.data ++ last } } : Descriptor)
            with needs_newline := false, skip_until_newline := false }
          w queue_full_notice with
      | none => simp [ha] at h
      | some p =>
        obtain ⟨d3, w3⟩ := p
        simp only [ha, descriptor_handle_input, Option.some.injEq, Prod.mk.injEq] at h
        obtain ⟨rfl, rfl⟩ := h
        have hf := descriptor_append_frame E fuel _ w _ d3 w3 rfl ha
        have h1 := hf.1
        simp only [input_side, Prod.mk.injEq] at h1
        refine ⟨?_, rfl, ?_⟩
        · simp [h1.2.2.2.2.2.2.2.1, queue_lines, hq, queue_new]
        · rw [hf.2]; rfl
    · intro hfit
      rw [descriptor_append_fits E fuel _ w _ rfl (by simpa [queue_lines] using hfit)]
      simp [descriptor_handle_input, queue_lines, buffer_clear, hq, queue_new]

/-- C3 on a new connection and eleven lines "a", with a telnet engine that
transmits text verbatim: the call returns with the state OPEN, ten lines "a"
queued and an empty line buffer. -/
theorem C3_queue_overflow_witness :
    ∃ d1,
      descriptor_handle_input env_quiet 0 (descriptor_fresh 3) world0
          (encode_lines (List.replicate 11 [97])) =
        some (d1, world0.emit (Effect.telnet 3 (TelnetCall.send queue_full_notice))) ∧
      d1.state = DescriptorState.OPEN ∧
      d1.command_queue.items = List.replicate 10 [97] ∧
      d1.line_buffer.data = [] := by
  have h := C3_queue_overflow env_quiet 0 (descriptor_fresh 3) world0 (List.replicate 11 [97])
    rfl rfl rfl rfl
    (fun l hl => by
      rw [List.eq_of_mem_replicate hl]
      exact ⟨by decide, by decide⟩)
  obtain ⟨d1, hrun, hstate, _⟩ := h.2 (by decide)
  have hq := h.1 d1 _ hrun
  exact ⟨d1, hrun, hstate, hq.1, hq.2.1⟩

/-- C3 as stated fails: on an OPEN connection with an empty command queue
whose output buffer is full, while the peer has reset the connection, feeding
eleven lines "a" makes descriptor_append flush the output buffer for the
notice; the send fails and the connection is CLOSED when the call returns. -/
theorem C3_counterexample :
    ∃ d1 w1,
      descriptor_handle_input env_reset 1 (descriptor_crowded 3) world0
          (encode_lines (List.replicate 11 [97])) = some (d1, w1) ∧
      (descriptor_crowded 3).command_queue = queue_new COMMAND_QUEUE_SIZE ∧
      (descriptor_crowded 3).state = DescriptorState.OPEN ∧
      d1.state = DescriptorState.CLOSED := by
  have e : encode_lines (List.replicate 11 [97]) =
      encode_lines (List.replicate 10 [97]) ++ [97, 10] := by decide
  have hfull : (descriptor_crowded 3).output_buffer.used
      = (descriptor_crowded 3).output_buffer.size := by
    simp only [descriptor_crowded, Buffer.used, List.length_replicate]
  rw [e, handle_input_lines env_reset 1 (List.replicate 10 [97]) (descriptor_crowded 3) world0 _
    rfl rfl
    (fun l hl => by
      rw [List.eq_of_mem_replicate hl]
      exact ⟨by decide, by decide⟩)
    (by decide)]
  have step : ∀ d : Descriptor, d.skip_until_newline = false → d.needs_newline = false →
      d.line_buffer.used < d.line_buffer.size →
      ¬ d.command_queue.used < d.command_queue.size →
      d.state ≠ DescriptorState.CLOSED →
      d.output_buffer.used = d.output_buffer.size → 0 < d.output_buffer.size →
      ∃ d1 w1, descriptor_handle_input env_reset 1 d world0 ([97] ++ [10]) = some (d1, w1) ∧
        d1.state = DescriptorState.CLOSED := by
    intro d hskip hnn hlt hq hst hfull hsz
    rw [handle_input_append, handle_input_ordinary env_reset 1 [97] d world0 hskip (by decide)
      (by simp only [List.length_singleton]; omega)]
    simp only []
    rw [handle_input_newline_full _ _ _ _ _ (by simpa using hq)]
    simp only [descriptor_append, if_false, Bool.false_eq_true, telnet_command, telnet_transmit,
      env_reset, env_quiet]
    rw [buffer_output_full_reset _ 0 _ _ queue_full_notice (by simpa using hst)
      (by simpa using hfull) (by simpa using hsz) (by decide) rfl]
    simp [descriptor_close, descriptor_handle_input, hst]
  obtain ⟨d1, w1, h1, h2⟩ := step (queue_lines (descriptor_crowded 3) (List.replicate 10 [97]))
    rfl rfl (by decide) (by decide) (by decide) hfull (by decide)
  exact ⟨d1, w1, h1, rfl, rfl, h2⟩

/-! ## C4 -/

/-- C4. On a connection at a line boundary with the line buffer of a new
connection (capacity 512, empty), no line break pending and room for two
commands in the queue, feed a first line of more than 512 ordinary bytes, a
line feed, a second line of at most 512 ordinary bytes and a line feed. If the
wire bytes of the notice fit in the free space of the output buffer (as they do
on a new connection), the call returns, the two commands queued are the first
512 bytes of the first line and then the second line unaltered, and the only
effect of the call is one telnet_send of
"Input line too long. Command truncated.". -/
theorem C4_line_overflow (E : Env) (fuel : Nat) (d : Descriptor) (w : World)
    (first second : List Byte)
    (hlb : d.line_buffer = buffer_new LINE_BUFFER_SIZE)
    (hskip : d.skip_until_newline = false) (hnn : d.needs_newline = false)
    (hq : d.command_queue.used + 2 ≤ d.command_queue.size)
    (h1 : LINE_BUFFER_SIZE < first.length) (h1o : ∀ c ∈ first, ordinary c)
    (h2 : second.length ≤ LINE_BUFFER_SIZE) (h2o : ∀ c ∈ second, ordinary c)
    (hfit : d.output_buffer.used +
      tx_len E w.trace.length (TelnetCall.send line_too_long_notice) ≤ d.output_buffer.size) :
    ∃ d1,
      descriptor_handle_input E fuel d w (first ++ [10] ++ second ++ [10]) =
        some (d1, w.emit (Effect.telnet d.fd (TelnetCall.send line_too_long_notice))) ∧
      d1.command_queue.items =
        d.command_queue.items ++ [first.take LINE_BUFFER_SIZE, second] ∧
      d1.line_buffer.data = [] ∧ d1.skip_until_newline = false ∧ d1.state = d.state := by
  simp only [LINE_BUFFER_SIZE] at *
  have hsz : d.line_buffer.size = 512 := by rw [hlb]; rfl
  have hdata : d.line_buffer.data = [] := by rw [hlb]; rfl
  have hdrop : 0 < (first.drop 512).length := by simp only [List.length_drop]; omega
  obtain ⟨c, tl, hct⟩ := List.exists_cons_of_length_pos hdrop
  have htake : (first.take 512).length = 512 := by simp only [List.length_take]; omega
  have hfirst : first = first.take 512 ++ c :: tl := by rw [← hct, List.take_append_drop]
  have hc : ordinary c := h1o c (by rw [hfirst]; simp)
  have htl : ∀ x ∈ tl, x ≠ 10 := fun x hx => (h1o x (by rw [hfirst]; simp [hx])).2.1
  have e : first ++ [10] ++ second ++ [10]
      = first.take 512 ++ (c :: (tl ++ (10 :: (second ++ 10 :: [])))) := by
    conv_lhs => rw [hfirst]
    simp
  rw [e, handle_input_append, handle_input_ordinary E fuel (first.take 512) d w hskip
    (fun x hx => h1o x (List.mem_of_mem_take hx))
    (by simp only [Buffer.used, hdata, List.length_nil, htake, hsz]; omega)]
  simp only []
  rw [handle_input_overflow E fuel _ w c _ _ hc, descriptor_append_fits E fuel _ w]
  simp only []
  rw [handle_input_skip E fuel tl, handle_input_newline, handle_input_line E fuel _ _ second []]
  rotate_left
  · rfl
  · rfl
  · exact h2o
  · simpa [hsz] using h2
  · simp only [Queue.used, List.length_append, List.length_singleton] at hq ⊢; omega
  · simp only [Queue.used] at hq ⊢; omega
  · rfl
  · exact htl
  · exact hnn
  · simpa using hfit
  · simp only [Buffer.used, hdata, List.nil_append, htake, hsz]; omega
  · exact hskip
  refine ⟨_, rfl, ?_, ?_, ?_, ?_⟩ <;> simp [queue_lines, hdata]

/-- C4 on a new connection, for a first line of 600 bytes "a" and the second
line "ok", with a telnet engine that transmits text verbatim. -/
theorem C4_line_overflow_witness :
    ∃ d1,
      descriptor_handle_input env_quiet 0 (descriptor_fresh 3) world0
          (List.replicate 600 97 ++ [10] ++ [111, 107] ++ [10]) =
        some (d1, world0.emit (Effect.telnet 3 (TelnetCall.send line_too_long_notice))) ∧
      d1.command_queue.items =
        [] ++ [(List.replicate 600 97).take LINE_BUFFER_SIZE, [111, 107]] ∧
      d1.line_buffer.data = [] ∧ d1.skip_until_newline = false ∧
      d1.state = DescriptorState.OPEN :=
  C4_line_overflow env_quiet 0 (descriptor_fresh 3) world0 (List.replicate 600 97) [111, 107]
    rfl rfl rfl (by decide)
    (by simp only [List.length_replicate, LINE_BUFFER_SIZE]; omega)
    (fun c hc => by rw [List.eq_of_mem_replicate hc]; decide)
    (by decide) (by decide) (by decide)

/-! ## Lemmas on descriptor_close -/

/-- Closing a connection that is not CLOSED invokes an installed hook once for
its handle. -/
theorem close_hook_calls_self (E : Env) (d : Descriptor) (w : World)
    (h : d.state ≠ DescriptorState.CLOSED)
    (hhook : E.on_close w.trace.length ≠ HookOutcome.absent) :
    hook_calls d.fd (descriptor_close E d w).2.trace = hook_calls d.fd w.trace + 1 := by
  cases hk : E.on_close w.trace.length <;>
    simp_all [descriptor_close, World.emit, hook_calls, List.count_append]

/-! ## C5 -/

/-- C5. descriptor_close on a CLOSED connection returns the connection and
the history unchanged: no hook call, no socket release. On a connection in any
other state it sets state to CLOSED and changes no other field; the history
grows by the hook call, if a hook is installed (followed by an error line if
the hook raises), and then by one release of the socket; so an installed hook
is invoked exactly once whether or not it raises. A second descriptor_close
changes nothing. -/
theorem C5_close_idempotent (E : Env) (d : Descriptor) (w : World) :
    (d.state = DescriptorState.CLOSED → descriptor_close E d w = (d, w)) ∧
    (d.state ≠ DescriptorState.CLOSED →
      (descriptor_close E d w).1 = { d with state := DescriptorState.CLOSED } ∧
      (E.on_close w.trace.length ≠ HookOutcome.absent →
        hook_calls d.fd (descriptor_close E d w).2.trace = hook_calls d.fd w.trace + 1) ∧
      (E.on_close w.trace.length = HookOutcome.absent →
        hook_calls d.fd (descriptor_close E d w).2.trace = hook_calls d.fd w.trace) ∧
      socket_closes d.fd (descriptor_close E d w).2.trace = socket_closes d.fd w.trace + 1 ∧
      (descriptor_close E d w).2.trace.getLast? = some (Effect.socket_close d.fd)) ∧
    descriptor_close E (descriptor_close E d w).1 (descriptor_close E d w).2 =
      descriptor_close E d w := by
  refine ⟨fun h => by simp [descriptor_close, h], fun h => ?_, ?_⟩
  · cases hk : E.on_close w.trace.length <;>
      simp [descriptor_close, h, hk, World.emit, hook_calls, socket_closes, List.count_append,
        List.getLast?_append]
  · by_cases h : d.state = DescriptorState.CLOSED
    · simp [descriptor_close, h]
    · simp [descriptor_close, h]

/-- C5 at concrete inputs: a new connection closed twice while the hook
raises. The first close invokes the hook once and releases the socket once, the
second changes nothing. -/
theorem C5_close_idempotent_witness :
    hook_calls 3 (descriptor_close env_faulty_hook (descriptor_fresh 3) world0).2.trace = 1 ∧
    socket_closes 3 (descriptor_close env_faulty_hook (descriptor_fresh 3) world0).2.trace = 1 ∧
    (descriptor_close env_faulty_hook (descriptor_fresh 3) world0).1.state
      = DescriptorState.CLOSED ∧
    descriptor_close env_faulty_hook
        (descriptor_close env_faulty_hook (descriptor_fresh 3) world0).1
        (descriptor_close env_faulty_hook (descriptor_fresh 3) world0).2 =
      descriptor_close env_faulty_hook (descriptor_fresh 3) world0 :=
  have h := C5_close_idempotent env_faulty_hook (descriptor_fresh 3) world0
  ⟨(h.2.1 (by decide)).2.1 (by decide), (h.2.1 (by decide)).2.2.2.1,
    by rw [(h.2.1 (by decide)).1], h.2.2⟩

/-! ## C6 -/

/-- C6 (the code departs from the claim). A new connection is closed, which
invokes the on_close hook once and releases the socket once. descriptor_drain
on the CLOSED connection then sets its state to DRAINING, and the next
descriptor_remove_closed, finding it DRAINING with an empty output buffer,
closes it again: the hook has been invoked twice and the socket released twice
for the one connection. -/
theorem C6_drain_reopens_closed :
    (descriptor_close env_quiet (descriptor_fresh 3) world0).1.state = DescriptorState.CLOSED ∧
    hook_calls 3 (descriptor_close env_quiet (descriptor_fresh 3) world0).2.trace = 1 ∧
    (descriptor_drain (descriptor_close env_quiet (descriptor_fresh 3) world0).1).state
      = DescriptorState.DRAINING ∧
    hook_calls 3 (descriptor_remove_closed env_quiet
      [descriptor_drain (descriptor_close env_quiet (descriptor_fresh 3) world0).1]
      (descriptor_close env_quiet (descriptor_fresh 3) world0).2).2.trace = 2 ∧
    socket_closes 3 (descriptor_remove_closed env_quiet
      [descriptor_drain (descriptor_close env_quiet (descriptor_fresh 3) world0).1]
      (descriptor_close env_quiet (descriptor_fresh 3) world0).2).2.trace = 2 := by
  decide

/-! ## C8 and C9 -/

theorem micros_add_delay (t : Timeval) (delay : Int) :
    (timeval_add_delay t delay).micros = t.micros + delay := by
  simp only [timeval_add_delay, Timeval.micros]
  have h := Int.ediv_add_emod (t.tv_usec + delay) 1000000
  linarith

/-- C8. For non-negative durations delay1 and delay2 (in microseconds): on a
DELAYING connection with deadline D, descriptor_delay(delay1) followed by
descriptor_delay(delay2), made at any two points w1 and w2 of any run under any
clock, leaves the state DELAYING and the deadline at D + delay1 + delay2, with
no effect on the outside; on an OPEN connection descriptor_delay(delay1) sets
the state to DELAYING and the deadline to the clock reading plus delay1. -/
theorem C8_delay_accumulates (E : Env) (d : Descriptor) (w1 w2 : World) (delay1 delay2 : Int)
    (h1 : 0 ≤ delay1) (h2 : 0 ≤ delay2) :
    (d.state = DescriptorState.DELAYING →
      ∃ d1 d2,
        descriptor_delay E (some d) delay1 w1 = (some d1, w1) ∧
        descriptor_delay E (some d1) delay2 w2 = (some d2, w2) ∧
        d2.state = DescriptorState.DELAYING ∧
        d2.delay_end = timeval_add_delay (timeval_add_delay d.delay_end delay1) delay2 ∧
        d2.delay_end.micros = d.delay_end.micros + delay1 + delay2) ∧
    (d.state = DescriptorState.OPEN →
      ∃ d1,
        descriptor_delay E (some d) delay1 w1 = (some d1, w1) ∧
        d1.state = DescriptorState.DELAYING ∧
        d1.delay_end.micros = (E.clock w1.trace.length).micros + delay1) := by
  have n1 : ¬ delay1 < 0 := by omega
  have n2 : ¬ delay2 < 0 := by omega
  constructor
  · intro hst
    refine ⟨{ d with delay_end := timeval_add_delay d.delay_end delay1 },
      { d with delay_end := timeval_add_delay (timeval_add_delay d.delay_end delay1) delay2 },
      by simp [descriptor_delay, hst, n1], by simp [descriptor_delay, hst, n2], hst, rfl, ?_⟩
    simp [micros_add_delay]
  · intro hst
    exact ⟨{ d with
             state := DescriptorState.DELAYING,
             delay_end := timeval_add_delay (E.clock w1.trace.length) delay1 },
      by simp [descriptor_delay, hst, n1], rfl, by simp [micros_add_delay]⟩

/-- C8 on a connection that is DELAYING until the instant 5 s, delayed by
1.5 s and then by 0.25 s. -/
theorem C8_delay_accumulates_witness :
    ∃ d1 d2,
      descriptor_delay env_quiet
          (some { descriptor_fresh 3 with
                  state := DescriptorState.DELAYING,
                  delay_end := { tv_sec := 5, tv_usec := 0 } }) 1500000 world0
        = (some d1, world0) ∧
      descriptor_delay env_quiet (some d1) 250000 world0 = (some d2, world0) ∧
      d2.state = DescriptorState.DELAYING ∧
      d2.delay_end = timeval_add_delay
        (timeval_add_delay { tv_sec := 5, tv_usec := 0 } 1500000) 250000 ∧
      d2.delay_end.micros = (5 * 1000000 + 0) + 1500000 + 250000 :=
  (C8_delay_accumulates env_quiet
    { descriptor_fresh 3 with
      state := DescriptorState.DELAYING, delay_end := { tv_sec := 5, tv_usec := 0 } }
    world0 world0 1500000 250000 (by decide) (by decide)).1 rfl

/-- C9 (as amended). For a negative duration, descriptor_delay on an existing
connection leaves the whole connection record, in particular state and
delay_end, unchanged. When the state is OPEN or DELAYING the only effect is the
warning; when the state is DRAINING or CLOSED there is no effect at all: the
request is ignored without a warning. -/
theorem C9_negative_delay (E : Env) (d : Descriptor) (w : World) (delay : Int)
    (hneg : delay < 0) :
    (descriptor_delay E (some d) delay w).1 = some d ∧
    (d.state = DescriptorState.OPEN ∨ d.state = DescriptorState.DELAYING →
      (descriptor_delay E (some d) delay w).2 =
        w.emit (Effect.log LogLine.warn_delay_negative)) ∧
    (d.state = DescriptorState.DRAINING ∨ d.state = DescriptorState.CLOSED →
      (descriptor_delay E (some d) delay w).2 = w) := by
  cases hst : d.state <;> simp [descriptor_delay, hst, hneg]

/-- C9 on an OPEN connection and the duration -1. -/
theorem C9_negative_delay_witness :
    (descriptor_delay env_quiet (some (descriptor_fresh 3)) (-1) world0).1
      = some (descriptor_fresh 3) ∧
    (descriptor_delay env_quiet (some (descriptor_fresh 3)) (-1) world0).2
      = world0.emit (Effect.log LogLine.warn_delay_negative) :=
  have h := C9_negative_delay env_quiet (descriptor_fresh 3) world0 (-1) (by decide)
  ⟨h.1, h.2.1 (Or.inl rfl)⟩

/-- C9 as stated fails: descriptor_delay with the duration -1 on a CLOSED
connection, and on a DRAINING one, reports nothing. -/
theorem C9_counterexample :
    (descriptor_delay env_quiet
      (some { descriptor_fresh 3 with state := DescriptorState.CLOSED }) (-1) world0).2.trace
        = [] ∧
    (descriptor_delay env_quiet
      (some { descriptor_fresh 3 with state := DescriptorState.DRAINING }) (-1) world0).2.trace
        = [] := by
  decide

/-! ## C10 -/

theorem handle_commands_map (r : Registry) :
    ∀ w : World,
      descriptor_handle_commands r w =
        (r.map after_dispatch, { w with trace := w.trace ++ r.filterMap dispatched }) := by
  induction r with
  | nil => intro w; simp [descriptor_handle_commands]
  | cons d rest ih =>
    intro w
    by_cases hst : d.state = DescriptorState.OPEN
    · cases hq : d.command_queue.items with
      | nil =>
        simp [descriptor_handle_commands, ih, after_dispatch, dispatched, Queue.used, hq, hst]
      | cons line tl =>
        simp [descriptor_handle_commands, ih, after_dispatch, dispatched, Queue.used, hq, hst,
          queue_pop_front, World.emit]
    · simp [descriptor_handle_commands, ih, after_dispatch, dispatched, hst]

/-- C10. One call of descriptor_handle_commands appends to the history
exactly the commands handed to the executor: going through the registry in
order, for each OPEN connection with a non-empty queue its oldest line, and
nothing for any other connection. The registry keeps its length and order. A
connection that is OPEN with queue line :: rest is left with queue rest and
needs_prompt set, all other fields unchanged; a connection that is not OPEN or
has an empty queue is left unchanged. -/
theorem C10_fair_dispatch (r : Registry) (w : World) :
    (descriptor_handle_commands r w).1.length = r.length ∧
    (descriptor_handle_commands r w).2 =
      { w with trace := w.trace ++ r.filterMap dispatched } ∧
    ∀ (i : Nat) (d : Descriptor), r[i]? = some d →
      (∀ line rest, d.state = DescriptorState.OPEN → d.command_queue.items = line :: rest →
        dispatched d = some (Effect.command d.fd line) ∧
        (descriptor_handle_commands r w).1[i]? =
          some { d with
                 needs_prompt := true,
                 command_queue := { d.command_queue with items := rest } }) ∧
      (d.state ≠ DescriptorState.OPEN ∨ d.command_queue.items = [] →
        dispatched d = none ∧ (descriptor_handle_commands r w).1[i]? = some d) := by
  rw [handle_commands_map]
  refine ⟨by simp, rfl, ?_⟩
  intro i d hd
  constructor
  · intro line rest hst hq
    simp [dispatched, hst, hq, List.getElem?_map, hd, after_dispatch, Queue.used]
  · intro h
    rcases h with h | h
    · simp [dispatched, h, List.getElem?_map, hd, after_dispatch]
    · simp [dispatched, h, List.getElem?_map, hd, after_dispatch, Queue.used]

/-- C10 on a registry of three connections: one OPEN with two queued lines,
one DELAYING with a queued line, one OPEN with an empty queue. Only the first
gets a command, its oldest line. -/
theorem C10_fair_dispatch_witness :
    descriptor_handle_commands
      [{ descriptor_fresh 3 with
         needs_prompt := false,
         command_queue := { size := 10, items := [[97], [98]] } },
       { descriptor_fresh 4 with
         state := DescriptorState.DELAYING,
         command_queue := { size := 10, items := [[99]] } },
       descriptor_fresh 5] world0 =
    ([{ descriptor_fresh 3 with
        needs_prompt := true,
        command_queue := { size := 10, items := [[98]] } },
      { descriptor_fresh 4 with
        state := DescriptorState.DELAYING,
        command_queue := { size := 10, items := [[99]] } },
      descriptor_fresh 5],
     { world0 with trace := [Effect.command 3 [97]] }) := by
  have h := C10_fair_dispatch
    [{ descriptor_fresh 3 with
       needs_prompt := false,
       command_queue := { size := 10, items := [[97], [98]] } },
     { descriptor_fresh 4 with
       state := DescriptorState.DELAYING,
       command_queue := { size := 10, items := [[99]] } },
     descriptor_fresh 5] world0
  exact Prod.ext (by decide) h.2.1

/-! ## C7 -/

theorem close_state (E : Env) (d : Descriptor) (w : World) :
    (descriptor_close E d w).1.state = DescriptorState.CLOSED := by
  by_cases h : d.state = DescriptorState.CLOSED <;> simp [descriptor_close, h]

theorem close_recvs (E : Env) (d : Descriptor) (w : World) :
    (descriptor_close E d w).2.recvs = w.recvs := by
  by_cases h : d.state = DescriptorState.CLOSED
  · simp [descriptor_close, h]
  · cases hk : E.on_close w.trace.length <;> simp [descriptor_close, h, hk, World.emit]

/-- Closing a connection invokes no hook for another handle, and none at all
when the connection is already CLOSED. -/
theorem close_hook_calls_other (E : Env) (d : Descriptor) (w : World) (fd : Int)
    (h : d.fd = fd → d.state = DescriptorState.CLOSED) :
    hook_calls fd (descriptor_close E d w).2.trace = hook_calls fd w.trace := by
  by_cases hst : d.state = DescriptorState.CLOSED
  · simp [descriptor_close, hst]
  · have hfd : d.fd ≠ fd := fun e => hst (h e)
    cases hk : E.on_close w.trace.length <;>
      simp [descriptor_close, hst, hk, World.emit, hook_calls, List.count_append,
        List.count_cons, hfd]

/-- The registry after a reap: the connections that were neither CLOSED nor
DRAINING with an empty output buffer, unchanged and in order. -/
theorem remove_closed_registry (E : Env) (r : Registry) :
    ∀ w : World, (descriptor_remove_closed E r w).1 = r.filter (fun d => ! reaped d) := by
  induction r with
  | nil => intro w; rfl
  | cons d rest ih =>
    intro w
    by_cases hdr : d.state = DescriptorState.DRAINING ∧ d.output_buffer.used = 0
    · simp [descriptor_remove_closed, hdr, close_state, ih, reaped]
    · by_cases hcl : d.state = DescriptorState.CLOSED
      · simp [descriptor_remove_closed, hcl, ih, reaped]
      · have : reaped d = false := by
          simp only [reaped, hcl, false_or, decide_eq_false_iff_not]
          exact hdr
        simp [descriptor_remove_closed, hdr, hcl, ih, this]

theorem remove_closed_recvs (E : Env) (r : Registry) :
    ∀ w : World, (descriptor_remove_closed E r w).2.recvs = w.recvs := by
  induction r with
  | nil => intro w; rfl
  | cons d rest ih =>
    intro w
    by_cases hdr : d.state = DescriptorState.DRAINING ∧ d.output_buffer.used = 0
    · simp [descriptor_remove_closed, hdr, close_state, ih, descriptor_destroy, World.emit,
        close_recvs]
    · by_cases hcl : d.state = DescriptorState.CLOSED
      · simp [descriptor_remove_closed, hcl, ih, descriptor_destroy, World.emit, close_recvs]
      · simp [descriptor_remove_closed, hdr, hcl, ih]

/-- A reap invokes no hook for a handle whose connections in the registry are
all CLOSED already. -/
theorem remove_closed_hook_calls (E : Env) (fd : Int) (r : Registry) :
    ∀ w : World, (∀ d ∈ r, d.fd = fd → d.state = DescriptorState.CLOSED) →
      hook_calls fd (descriptor_remove_closed E r w).2.trace = hook_calls fd w.trace := by
  induction r with
  | nil => intro w _; rfl
  | cons d rest ih =>
    intro w h
    have hd := h d (List.mem_cons_self _ _)
    have hrest : ∀ x ∈ rest, x.fd = fd → x.state = DescriptorState.CLOSED :=
      fun x hx => h x (List.mem_cons_of_mem _ hx)
    have hdestroy : ∀ (x : Descriptor) (v : World),
        (x.fd = fd → x.state = DescriptorState.CLOSED) →
        hook_calls fd (descriptor_destroy E x v).trace = hook_calls fd v.trace := by
      intro x v hx
      have := close_hook_calls_other E x v fd hx
      simpa [descriptor_destroy, World.emit, hook_calls, List.count_append] using this
    by_cases hdr : d.state = DescriptorState.DRAINING ∧ d.output_buffer.used = 0
    · have e : descriptor_remove_closed E (d :: rest) w =
          descriptor_remove_closed E rest
            (descriptor_destroy E (descriptor_close E d w).1 (descriptor_close E d w).2) := by
        simp [descriptor_remove_closed, hdr, close_state]
      rw [e, ih _ hrest, hdestroy _ _ (fun _ => close_state E d w),
        close_hook_calls_other E d w fd hd]
    · by_cases hcl : d.state = DescriptorState.CLOSED
      · have e : descriptor_remove_closed E (d :: rest) w =
            descriptor_remove_closed E rest (descriptor_destroy E d w) := by
          simp [descriptor_remove_closed, hcl]
        rw [e, ih _ hrest, hdestroy _ _ (fun _ => hcl)]
      · have e : (descriptor_remove_closed E (d :: rest) w).2 =
            (descriptor_remove_closed E rest w).2 := by
          simp [descriptor_remove_closed, hdr, hcl]
        rw [e]
        exact ih _ hrest

/-- C7. On an OPEN connection, when recv returns 0, descriptor_do_recv
returns with the connection CLOSED after that single recv call. With the
connection so updated in a registry of distinct handles, the following
descriptor_remove_closed leaves a registry in which descriptor_get finds
nothing for the handle, makes no recv call, and over the two steps, the call
of descriptor_close by the destructor included, an installed on_close hook
is invoked exactly once for the handle. -/
theorem C7_peer_eof (E : Env) (fuel n : Nat) (before after : Registry) (d : Descriptor)
    (w : World)
    (hopen : d.state = DescriptorState.OPEN)
    (heof : E.recv w.recvs = RecvResult.bytes [])
    (hwf : Registry.wf (before ++ d :: after)) :
    ∃ d1 w1,
      descriptor_do_recv E fuel (n + 1) d w = some (d1, w1) ∧
      d1 = { d with state := DescriptorState.CLOSED } ∧
      w1.recvs = w.recvs + 1 ∧
      descriptor_get (descriptor_remove_closed E (before ++ d1 :: after) w1).1 d.fd = none ∧
      (descriptor_remove_closed E (before ++ d1 :: after) w1).2.recvs = w.recvs + 1 ∧
      (E.on_close w.trace.length ≠ HookOutcome.absent →
        hook_calls d.fd (descriptor_remove_closed E (before ++ d1 :: after) w1).2.trace =
          hook_calls d.fd w.trace + 1) := by
  have hne : d.state ≠ DescriptorState.CLOSED := by rw [hopen]; decide
  have hrecv : descriptor_do_recv E fuel (n + 1) d w =
      some (descriptor_close E d { w with recvs := w.recvs + 1 }) := by
    simp [descriptor_do_recv, descriptor_should_recv, hopen, heof]
  have hd1 : (descriptor_close E d { w with recvs := w.recvs + 1 }).1
      = { d with state := DescriptorState.CLOSED } := by
    simp [descriptor_close, hne]
  have hnodup : ∀ x ∈ before ++ after, x.fd ≠ d.fd := by
    intro x hx
    simp only [Registry.wf, List.map_append, List.map_cons] at hwf
    have h1 := List.nodup_middle.mp hwf
    have h2 := (List.nodup_cons.mp h1).1
    intro e
    apply h2
    rw [← List.map_append, ← e]
    exact List.mem_map_of_mem _ hx
  have hall : ∀ x ∈ before ++ { d with state := DescriptorState.CLOSED } :: after,
      x.fd = d.fd → x.state = DescriptorState.CLOSED := by
    intro x hx hfd
    rcases List.mem_append.mp hx with hb | ha
    · exact absurd hfd (hnodup x (List.mem_append_left _ hb))
    · rcases List.mem_cons.mp ha with rfl | ha2
      · rfl
      · exact absurd hfd (hnodup x (List.mem_append_right _ ha2))
  have hcr : (descriptor_close E d { w with recvs := w.recvs + 1 }).2.recvs = w.recvs + 1 := by
    rw [close_recvs]
  have hch : E.on_close w.trace.length ≠ HookOutcome.absent →
      hook_calls d.fd (descriptor_close E d { w with recvs := w.recvs + 1 }).2.trace
        = hook_calls d.fd w.trace + 1 :=
    close_hook_calls_self E d { w with recvs := w.recvs + 1 } hne
  refine ⟨(descriptor_close E d { w with recvs := w.recvs + 1 }).1,
    (descriptor_close E d { w with recvs := w.recvs + 1 }).2, hrecv, hd1, hcr, ?_, ?_, ?_⟩
  · rw [hd1, remove_closed_registry, descriptor_get, List.find?_eq_none]
    intro x hx
    have hx2 := List.mem_filter.mp hx
    have hcl := hall x hx2.1
    have hnot : reaped x = false := by simpa using hx2.2
    intro hfd
    have hst := hcl (by simpa using hfd)
    simp [reaped, hst] at hnot
  · rw [remove_closed_recvs, hcr]
  · intro hhook
    rw [hd1, remove_closed_hook_calls E d.fd _ _ hall, hch hhook]

/-- C7 on a registry of three new connections with handles 1, 3 and 5, when
the peer of connection 3 has closed its end. -/
theorem C7_peer_eof_witness :
    ∃ d1 w1,
      descriptor_do_recv env_eof 0 (0 + 1) (descriptor_fresh 3) world0 = some (d1, w1) ∧
      d1 = { descriptor_fresh 3 with state := DescriptorState.CLOSED } ∧
      w1.recvs = world0.recvs + 1 ∧
      descriptor_get
        (descriptor_remove_closed env_eof ([descriptor_fresh 1] ++ d1 :: [descriptor_fresh 5])
          w1).1 (descriptor_fresh 3).fd = none ∧
      (descriptor_remove_closed env_eof ([descriptor_fresh 1] ++ d1 :: [descriptor_fresh 5])
        w1).2.recvs = world0.recvs + 1 ∧
      (env_eof.on_close world0.trace.length ≠ HookOutcome.absent →
        hook_calls (descriptor_fresh 3).fd
          (descriptor_remove_closed env_eof ([descriptor_fresh 1] ++ d1 :: [descriptor_fresh 5])
            w1).2.trace = hook_calls (descriptor_fresh 3).fd world0.trace + 1) :=
  C7_peer_eof env_eof 0 0 [descriptor_fresh 1] [descriptor_fresh 5] (descriptor_fresh 3) world0
    rfl rfl (by unfold Registry.wf; decide)

/-! ## C11 -/

/-- C11. For a NAWS subnegotiation whose payload is the four bytes
w_hi, w_lo, h_hi, h_lo, descriptor_on_telnet_event returns with width set to
w_hi * 256 + w_lo and height set to h_hi * 256 + h_lo on the exposed state of
the connection, on a host of either byte order; nothing else changes and
nothing happens to the outside. -/
theorem C11_naws_decoding (E : Env) (fuel : Nat) (d : Descriptor) (w : World)
    (w_hi w_lo h_hi h_lo : Byte)
    (h1 : w_hi < 256) (h2 : w_lo < 256) (h3 : h_hi < 256) (h4 : h_lo < 256) :
    descriptor_on_telnet_event E fuel d w
        (TelnetEvent.SUBNEGOTIATION Telopt.NAWS [w_hi, w_lo, h_hi, h_lo]) =
      some ({ d with
              width := some (w_hi * 256 + w_lo),
              height := some (h_hi * 256 + h_lo) }, w) := by
  have e1 : ∀ (be : Bool) (a b : Nat), a < 256 → b < 256 →
      htons be (load_guint16 be a b) = a * 256 + b := by
    intro be a b ha hb
    cases be
    · simp only [htons, load_guint16, Bool.false_eq_true, if_false]
      omega
    · simp only [htons, load_guint16, if_true]
      omega
  simp [descriptor_on_telnet_event, e1 _ _ _ h1 h2, e1 _ _ _ h3 h4]

/-- C11 on the payload 0, 80, 0, 24, on a little-endian and on a big-endian
host: width 80, height 24. -/
theorem C11_naws_decoding_witness :
    descriptor_on_telnet_event env_quiet 0 (descriptor_fresh 3) world0
        (TelnetEvent.SUBNEGOTIATION Telopt.NAWS [0, 80, 0, 24]) =
      some ({ descriptor_fresh 3 with width := some 80, height := some 24 }, world0) ∧
    descriptor_on_telnet_event env_big_endian 0 (descriptor_fresh 3) world0
        (TelnetEvent.SUBNEGOTIATION Telopt.NAWS [0, 80, 0, 24]) =
      some ({ descriptor_fresh 3 with width := some 80, height := some 24 }, world0) :=
  ⟨C11_naws_decoding env_quiet 0 (descriptor_fresh 3) world0 0 80 0 24
      (by decide) (by decide) (by decide) (by decide),
    C11_naws_decoding env_big_endian 0 (descriptor_fresh 3) world0 0 80 0 24
      (by decide) (by decide) (by decide) (by decide)⟩

/-! ## C13 -/

theorem add_pollitems_map (r : Registry) :
    ∀ pollitems : List PollItem,
      descriptor_add_pollitems r pollitems = pollitems ++ r.map poll_interest := by
  induction r with
  | nil => intro pollitems; simp [descriptor_add_pollitems]
  | cons d rest ih =>
    intro pollitems
    simp [descriptor_add_pollitems, ih, poll_interest]

/-- C13. descriptor_add_pollitems keeps the items already in the array and
appends exactly one item per connection of the registry, in registry order. The
item of a connection carries its handle, always requests error, requests
readability exactly when state is OPEN, and requests writability exactly when
state is not CLOSED and the output buffer is not empty. -/
theorem C13_poll_interests (r : Registry) (pollitems : List PollItem) :
    (descriptor_add_pollitems r pollitems).length = pollitems.length + r.length ∧
    (descriptor_add_pollitems r pollitems).take pollitems.length = pollitems ∧
    ∀ (i : Nat) (d : Descriptor), r[i]? = some d →
      ∃ p, (descriptor_add_pollitems r pollitems)[pollitems.length + i]? = some p ∧
        p.fd = d.fd ∧
        p.pollerr = true ∧
        (p.pollin = true ↔ d.state = DescriptorState.OPEN) ∧
        (p.pollout = true ↔
          (d.state ≠ DescriptorState.CLOSED ∧ d.output_buffer.used > 0)) := by
  rw [add_pollitems_map]
  refine ⟨by simp, by simp, ?_⟩
  intro i d hd
  refine ⟨poll_interest d, ?_, rfl, rfl, ?_, ?_⟩
  · rw [List.getElem?_append_right (by omega)]
    simp [List.getElem?_map, hd]
  · simp [poll_interest, descriptor_should_recv]
  · simp [poll_interest, descriptor_should_send]

/-- C13 on a registry of an OPEN connection with pending output, a DRAINING
connection with an empty output buffer and a CLOSED connection with pending
output: three items are appended, and the item of the CLOSED connection
requests error only. -/
theorem C13_poll_interests_witness :
    (descriptor_add_pollitems
      [{ descriptor_fresh 3 with output_buffer := { size := 4096, data := [65] } },
       { descriptor_fresh 4 with state := DescriptorState.DRAINING },
       { descriptor_fresh 5 with
         state := DescriptorState.CLOSED,
         output_buffer := { size := 4096, data := [65] } }] []).length = 0 + 3 ∧
    ∃ p, (descriptor_add_pollitems
      [{ descriptor_fresh 3 with output_buffer := { size := 4096, data := [65] } },
       { descriptor_fresh 4 with state := DescriptorState.DRAINING },
       { descriptor_fresh 5 with
         state := DescriptorState.CLOSED,
         output_buffer := { size := 4096, data := [65] } }] [])[0 + 2]? = some p ∧
      p.fd = 5 ∧ p.pollerr = true ∧
      (p.pollin = true ↔ DescriptorState.CLOSED = DescriptorState.OPEN) ∧
      (p.pollout = true ↔
        (DescriptorState.CLOSED ≠ DescriptorState.CLOSED ∧ [65].length > 0)) :=
  have h := C13_poll_interests
    [{ descriptor_fresh 3 with output_buffer := { size := 4096, data := [65] } },
     { descriptor_fresh 4 with state := DescriptorState.DRAINING },
     { descriptor_fresh 5 with
       state := DescriptorState.CLOSED,
       output_buffer := { size := 4096, data := [65] } }] []
  ⟨h.1, h.2.2 2 _ rfl⟩

/-! ## C16 -/

theorem timeval_compare_pos (a b : Timeval) : timeval_compare a b > 0 ↔ b.micros < a.micros := by
  unfold timeval_compare
  by_cases h1 : a.micros < b.micros
  · simp [h1]; omega
  · by_cases h2 : a.micros = b.micros
    · simp [h2]
    · simp [h1, h2]; omega

theorem handle_delays_map (start : Timeval) (r : Registry) :
    ∀ w : World,
      descriptor_handle_delays start r w =
        (r.map (fun d =>
            if expired start d then
              { d with state := DescriptorState.OPEN, self_delayed := false }
            else d),
          { w with trace := w.trace ++ r.filterMap (resumed start) }) := by
  induction r with
  | nil => intro w; simp [descriptor_handle_delays]
  | cons d rest ih =>
    intro w
    by_cases he : expired start d
    · have hc : d.state = DescriptorState.DELAYING ∧ timeval_compare start d.delay_end > 0 :=
        ⟨he.1, (timeval_compare_pos _ _).mpr he.2⟩
      cases hs : d.self_delayed
      · simp [descriptor_handle_delays, hc, hs, ih, he, resumed]
      · simp [descriptor_handle_delays, hc, hs, ih, he, resumed, World.emit]
    · have hc : ¬ (d.state = DescriptorState.DELAYING ∧
          timeval_compare start d.delay_end > 0) := by
        intro h
        exact he ⟨h.1, (timeval_compare_pos _ _).mp h.2⟩
      simp [descriptor_handle_delays, hc, ih, he, resumed]

/-- C16. One call of descriptor_handle_delays with the timestamp start, used
for every connection. A DELAYING connection whose deadline lies strictly before
start is left OPEN with self_delayed clear and all other fields, the deadline
included, unchanged. Any other connection is left unchanged. The registry keeps
its length and order. The history grows by exactly one resume callback for
each connection that was DELAYING with an expired deadline and self_delayed
set, in registry order, and by nothing else. -/
theorem C16_delay_expiry (start : Timeval) (r : Registry) (w : World) :
    (descriptor_handle_delays start r w).1.length = r.length ∧
    (descriptor_handle_delays start r w).2 =
      { w with trace := w.trace ++ r.filterMap (resumed start) } ∧
    ∀ (i : Nat) (d : Descriptor), r[i]? = some d →
      (d.state = DescriptorState.DELAYING → d.delay_end.micros < start.micros →
        (descriptor_handle_delays start r w).1[i]? =
          some { d with state := DescriptorState.OPEN, self_delayed := false } ∧
        resumed start d = if d.self_delayed then some (Effect.resume d.fd) else none) ∧
      (d.state ≠ DescriptorState.DELAYING ∨ start.micros ≤ d.delay_end.micros →
        (descriptor_handle_delays start r w).1[i]? = some d ∧ resumed start d = none) := by
  rw [handle_delays_map]
  refine ⟨by simp, rfl, ?_⟩
  intro i d hd
  constructor
  · intro hst hlt
    have he : expired start d := ⟨hst, hlt⟩
    simp [List.getElem?_map, hd, he, resumed]
  · intro h
    have he : ¬ expired start d := by
      intro he
      rcases h with h | h
      · exact h he.1
      · have := he.2; omega
    simp [List.getElem?_map, hd, he, resumed]

/-- C16 at the timestamp 10 s on a registry of a connection that delayed itself
until 5 s, a connection DELAYING until 20 s and an OPEN connection. -/
theorem C16_delay_expiry_witness :
    descriptor_handle_delays { tv_sec := 10, tv_usec := 0 }
      [{ descriptor_fresh 3 with
         state := DescriptorState.DELAYING, self_delayed := true,
         delay_end := { tv_sec := 5, tv_usec := 0 } },
       { descriptor_fresh 4 with
         state := DescriptorState.DELAYING, self_delayed := true,
         delay_end := { tv_sec := 20, tv_usec := 0 } },
       descriptor_fresh 5] world0 =
    ([{ descriptor_fresh 3 with
        state := DescriptorState.OPEN, self_delayed := false,
        delay_end := { tv_sec := 5, tv_usec := 0 } },
      { descriptor_fresh 4 with
        state := DescriptorState.DELAYING, self_delayed := true,
        delay_end := { tv_sec := 20, tv_usec := 0 } },
      descriptor_fresh 5],
     { world0 with trace := [Effect.resume 3] }) := by
  have h := C16_delay_expiry { tv_sec := 10, tv_usec := 0 }
    [{ descriptor_fresh 3 with
       state := DescriptorState.DELAYING, self_delayed := true,
       delay_end := { tv_sec := 5, tv_usec := 0 } },
     { descriptor_fresh 4 with
       state := DescriptorState.DELAYING, self_delayed := true,
       delay_end := { tv_sec := 20, tv_usec := 0 } },
     descriptor_fresh 5] world0
  exact Prod.ext (by decide) h.2.1

/-! ## The history of the output path -/

theorem core_effects_append (a b : List Effect) :
    core_effects (a ++ b) = core_effects a ++ core_effects b := by
  simp [core_effects]

theorem close_core (E : Env) (d : Descriptor) (w : World) :
    core_effects (descriptor_close E d w).2.trace = core_effects w.trace := by
  by_cases h : d.state = DescriptorState.CLOSED
  · simp [descriptor_close, h]
  · cases hk : E.on_close w.trace.length <;>
      simp [descriptor_close, h, hk, World.emit, core_effects, output_effect]

theorem do_send_core (E : Env) (fuel : Nat) :
    ∀ (d : Descriptor) (w : World) (d1 : Descriptor) (w1 : World),
      descriptor_do_send E fuel d w = some (d1, w1) →
      core_effects w1.trace = core_effects w.trace := by
  induction fuel with
  | zero =>
    intro d w d1 w1 h
    by_cases hs : descriptor_should_send d = true
    · simp [descriptor_do_send, hs] at h
    · simp only [descriptor_do_send, hs] at h
      simp only [Bool.false_eq_true, if_false, Option.some.injEq, Prod.mk.injEq] at h
      obtain ⟨rfl, rfl⟩ := h
      rfl
  | succ n ih =>
    intro d w d1 w1 h
    by_cases hs : descriptor_should_send d = true
    · simp only [descriptor_do_send, hs, if_true] at h
      cases hr : E.send w.sends with
      | EAGAIN =>
        simp only [hr, Option.some.injEq, Prod.mk.injEq] at h
        obtain ⟨rfl, rfl⟩ := h
        rfl
      | EINTR =>
        simp only [hr] at h
        have := ih _ _ _ _ h
        exact this
      | ECONNRESET =>
        simp only [hr, Option.some.injEq] at h
        have := close_core E d { w with sends := w.sends + 1 }
        rw [h] at this
        exact this
      | failure =>
        simp only [hr, Option.some.injEq] at h
        have := close_core E d ({ w with sends := w.sends + 1 }.emit
          (Effect.log LogLine.perror_send))
        rw [h] at this
        simpa [World.emit, core_effects, output_effect] using this
      | accepts room =>
        simp only [hr] at h
        have := ih _ _ _ _ h
        simpa [World.emit, core_effects, output_effect] using this
    · simp only [descriptor_do_send, hs] at h
      simp only [Bool.false_eq_true, if_false, Option.some.injEq, Prod.mk.injEq] at h
      obtain ⟨rfl, rfl⟩ := h
      rfl

theorem buffer_output_loop_core (E : Env) (fuel n : Nat) :
    ∀ (d : Descriptor) (w : World) (rest : List Byte) (d1 : Descriptor) (w1 : World),
      descriptor_buffer_output_loop E fuel n d w rest = some (d1, w1) →
      core_effects w1.trace = core_effects w.trace := by
  induction n with
  | zero =>
    intro d w rest d1 w1 h
    by_cases hr : rest.length > 0
    · simp [descriptor_buffer_output_loop, hr] at h
    · simp only [descriptor_buffer_output_loop, hr, if_false, Option.some.injEq,
        Prod.mk.injEq] at h
      obtain ⟨rfl, rfl⟩ := h
      rfl
  | succ n ih =>
    intro d w rest d1 w1 h
    by_cases hr : rest.length > 0
    · simp only [descriptor_buffer_output_loop, hr, if_true] at h
      cases hs : descriptor_do_send E fuel d w with
      | none => simp [hs] at h
      | some p =>
        obtain ⟨d2, w2⟩ := p
        have h2 := do_send_core E fuel d w d2 w2 hs
        simp only [hs] at h
        by_cases hss : descriptor_should_send d2 = true
        · simp only [hss, not_true_eq_false, if_false] at h
          have h3 := ih _ _ _ _ _ h
          rw [h3, h2]
        · simp only [hss, not_false_eq_true, if_true, Option.some.injEq, Prod.mk.injEq] at h
          obtain ⟨rfl, rfl⟩ := h
          exact h2
    · simp only [descriptor_buffer_output_loop, hr, if_false, Option.some.injEq,
        Prod.mk.injEq] at h
      obtain ⟨rfl, rfl⟩ := h
      rfl

/-- descriptor_buffer_output has effects of the socket level only. -/
theorem buffer_output_core (E : Env) (fuel : Nat) (d : Descriptor) (w : World)
    (data : List Byte) (d1 : Descriptor) (w1 : World)
    (h : descriptor_buffer_output E fuel d w data = some (d1, w1)) :
    core_effects w1.trace = core_effects w.trace :=
  buffer_output_loop_core E fuel fuel _ _ _ _ _ h

theorem telnet_transmit_core (E : Env) (fuel : Nat) (chunks : List (List Byte)) :
    ∀ (d : Descriptor) (w : World) (d1 : Descriptor) (w1 : World),
      telnet_transmit E fuel chunks d w = some (d1, w1) →
      core_effects w1.trace = core_effects w.trace := by
  induction chunks with
  | nil =>
    intro d w d1 w1 h
    simp only [telnet_transmit, Option.some.injEq, Prod.mk.injEq] at h
    obtain ⟨rfl, rfl⟩ := h
    rfl
  | cons chunk rest ih =>
    intro d w d1 w1 h
    simp only [telnet_transmit] at h
    cases hb : descriptor_buffer_output E fuel d w chunk with
    | none => simp [hb] at h
    | some p =>
      obtain ⟨d2, w2⟩ := p
      simp only [hb] at h
      rw [ih _ _ _ _ h, buffer_output_core E fuel d w chunk d2 w2 hb]

/-- Apart from effects of the socket level, a telnet command does one thing to
the outside: the call into the telnet engine. -/
theorem telnet_command_core (E : Env) (fuel : Nat) (d : Descriptor) (w : World)
    (call : TelnetCall) (d1 : Descriptor) (w1 : World)
    (h : telnet_command E fuel d w call = some (d1, w1)) :
    core_effects w1.trace = core_effects w.trace ++ [Effect.telnet d.fd call] := by
  rw [telnet_transmit_core E fuel _ _ _ _ _ h]
  simp [World.emit, core_effects, output_effect]

/-- descriptor_append in full: whenever it returns, needs_newline is clear
and needs_prompt set, the other fields of the input side are unchanged, and
apart from effects of the socket level the history has grown by the telnet_send
of a line break, if one was pending, and the telnet_send of the text. -/
theorem descriptor_append_spec (E : Env) (fuel : Nat) (d : Descriptor) (w : World)
    (msg : List Byte) (d1 : Descriptor) (w1 : World)
    (h : descriptor_append E fuel d w msg = some (d1, w1)) :
    input_side d1 = input_side { d with needs_prompt := true, needs_newline := false } ∧
    core_effects w1.trace = core_effects w.trace ++
      (if d.needs_newline then [Effect.telnet d.fd (TelnetCall.send [13, 10])] else []) ++
      [Effect.telnet d.fd (TelnetCall.send msg)] := by
  cases hnn : d.needs_newline
  · have := descriptor_append_frame E fuel d w msg d1 w1 hnn h
    simp only [descriptor_append, hnn, Bool.false_eq_true, if_false] at h
    cases hc : telnet_command E fuel d w (TelnetCall.send msg) with
    | none => simp [hc] at h
    | some p =>
      obtain ⟨d2, w2⟩ := p
      simp only [hc, Option.some.injEq, Prod.mk.injEq] at h
      obtain ⟨rfl, rfl⟩ := h
      have hcore := telnet_command_core E fuel d w _ d2 w2 hc
      refine ⟨?_, by simpa using hcore⟩
      have h1 := this.1
      simp only [input_side, Prod.mk.injEq] at h1 ⊢
      simp [h1, hnn]
  · simp only [descriptor_append, hnn, if_true] at h
    cases hc1 : telnet_command E fuel d w (TelnetCall.send [13, 10]) with
    | none => simp [hc1] at h
    | some p =>
      obtain ⟨d2, w2⟩ := p
      simp only [hc1] at h
      cases hc2 : telnet_command E fuel { d2 with needs_newline := false } w2
          (TelnetCall.send msg) with
      | none => simp [hc2] at h
      | some q =>
        obtain ⟨d3, w3⟩ := q
        simp only [hc2, Option.some.injEq, Prod.mk.injEq] at h
        obtain ⟨rfl, rfl⟩ := h
        have f1 := telnet_command_frame E fuel d w _ d2 w2 hc1
        have f2 := telnet_command_frame E fuel _ w2 _ d3 w3 hc2
        have c1 := telnet_command_core E fuel d w _ d2 w2 hc1
        have c2 := telnet_command_core E fuel _ w2 _ d3 w3 hc2
        have g1 := f1.1
        have g2 := f2.1
        simp only [input_side, Prod.mk.injEq] at g1 g2 ⊢
        refine ⟨by simp [g1, g2], ?_⟩
        rw [c2, c1]
        simp [g1]

/-! ## Bounds on the input side -/

theorem handle_input_byte_bounds (E : Env) (fuel : Nat) (lsize qsize : Nat) (d : Descriptor)
    (w : World) (c : Byte) (d1 : Descriptor) (w1 : World)
    (h : descriptor_handle_input_byte E fuel d w c = some (d1, w1))
    (hb : input_bounds lsize qsize d) : input_bounds lsize qsize d1 := by
  obtain ⟨hls, hqs, hlu, hlo, hqu, hqo⟩ := hb
  by_cases h13 : c = 13
  · simp only [descriptor_handle_input_byte, h13, if_true, Option.some.injEq,
      Prod.mk.injEq] at h
    obtain ⟨rfl, rfl⟩ := h
    exact ⟨hls, hqs, hlu, hlo, hqu, hqo⟩
  by_cases h10 : c = 10
  · subst h10
    by_cases hroom : d.command_queue.used < d.command_queue.size
    · simp [descriptor_handle_input_byte, queue_push_back_len, hroom, buffer_clear] at h
      obtain ⟨rfl, rfl⟩ := h
      refine ⟨hls, hqs, by simp [Buffer.used], by simp, ?_, ?_⟩
      · simp only [Queue.used, List.length_append, List.length_singleton] at hroom ⊢
        omega
      · intro l hl
        simp only [List.mem_append, List.mem_singleton] at hl
        rcases hl with hl | rfl
        · exact hqo l hl
        · exact ⟨hlu, hlo⟩
    · simp only [descriptor_handle_input_byte, queue_push_back_len, hroom] at h
      simp only [if_false, Bool.false_eq_true] at h
      simp at h
      cases ha : descriptor_append E fuel
          { d with needs_newline := false, skip_until_newline := false } w
          queue_full_notice with
      | none => simp [ha] at h
      | some p =>
        obtain ⟨d3, w3⟩ := p
        simp only [ha, Option.some.injEq, Prod.mk.injEq] at h
        obtain ⟨rfl, rfl⟩ := h
        have hs := (descriptor_append_spec E fuel _ w _ d3 w3 ha).1
        simp only [input_side, Prod.mk.injEq] at hs
        obtain ⟨-, -, -, -, -, -, hlb, hcq, -, -⟩ := hs
        refine ⟨?_, ?_, by simp [Buffer.used, buffer_clear], by simp [buffer_clear], ?_, ?_⟩
        · simp [buffer_clear, hlb, hls]
        · simp [hcq, hqs]
        · simp [hcq, hqu]
        · simpa [hcq] using hqo
  by_cases hskip : d.skip_until_newline = true
  · simp only [descriptor_handle_input_byte, h13, h10, hskip, if_true, if_false,
      Option.some.injEq, Prod.mk.injEq] at h
    obtain ⟨rfl, rfl⟩ := h
    exact ⟨hls, hqs, hlu, hlo, hqu, hqo⟩
  by_cases h8 : c = 8
  · simp only [descriptor_handle_input_byte, h13, h10, hskip, h8, if_true, if_false,
      Option.some.injEq, Prod.mk.injEq] at h
    obtain ⟨rfl, rfl⟩ := h
    refine ⟨hls, hqs, ?_, ?_, hqu, hqo⟩
    · simp only [buffer_backspace, Buffer.used, List.length_dropLast] at hlu ⊢
      omega
    · intro x hx
      exact hlo x (List.mem_of_mem_dropLast hx)
  by_cases hroom : d.line_buffer.used < d.line_buffer.size
  · simp [descriptor_handle_input_byte, h13, h10, hskip, h8, buffer_append_c, hroom] at h
    obtain ⟨rfl, rfl⟩ := h
    refine ⟨hls, hqs, ?_, ?_, hqu, hqo⟩
    · simp only [Buffer.used, List.length_append, List.length_singleton] at hroom ⊢
      omega
    · intro x hx
      simp only [List.mem_append, List.mem_singleton] at hx
      rcases hx with hx | rfl
      · exact hlo x hx
      · exact ⟨h8, h10, h13⟩
  · simp only [descriptor_handle_input_byte, h13, h10, hskip, h8, buffer_append_c, hroom] at h
    simp only [if_false, Bool.false_eq_true] at h
    generalize ha : descriptor_append E fuel _ w line_too_long_notice = r at h
    cases r with
    | none => simp at h
    | some p =>
      obtain ⟨d3, w3⟩ := p
      simp only [Option.some.injEq, Prod.mk.injEq] at h
      obtain ⟨rfl, rfl⟩ := h
      have hs := (descriptor_append_spec E fuel _ w _ d3 w3 ha).1
      simp only [input_side, Prod.mk.injEq] at hs
      obtain ⟨-, -, -, -, -, -, hlb, hcq, -, -⟩ := hs
      exact ⟨by rw [hlb]; exact hls, by rw [hcq]; exact hqs, by rw [hlb]; exact hlu,
        by rw [hlb]; exact hlo, by rw [hcq]; exact hqu, by rw [hcq]; exact hqo⟩

theorem handle_input_bounds (E : Env) (fuel : Nat) (lsize qsize : Nat) (s : List Byte) :
    ∀ (d : Descriptor) (w : World) (d1 : Descriptor) (w1 : World),
      descriptor_handle_input E fuel d w s = some (d1, w1) →
      input_bounds lsize qsize d → input_bounds lsize qsize d1 := by
  induction s with
  | nil =>
    intro d w d1 w1 h hb
    simp only [descriptor_handle_input, Option.some.injEq, Prod.mk.injEq] at h
    obtain ⟨rfl, rfl⟩ := h
    exact hb
  | cons c rest ih =>
    intro d w d1 w1 h hb
    simp only [descriptor_handle_input] at h
    cases hc : descriptor_handle_input_byte E fuel d w c with
    | none => simp [hc] at h
    | some p =>
      obtain ⟨d2, w2⟩ := p
      simp only [hc] at h
      exact ih d2 w2 d1 w1 h (handle_input_byte_bounds E fuel lsize qsize d w c d2 w2 hc hb)

theorem feed_chunks_bounds (E : Env) (fuel : Nat) (lsize qsize : Nat)
    (chunks : List (List Byte)) (d : Descriptor) (w : World) (d1 : Descriptor) (w1 : World)
    (h : feed_chunks E fuel d w chunks = some (d1, w1))
    (hb : input_bounds lsize qsize d) : input_bounds lsize qsize d1 := by
  rw [feed_chunks_flatten] at h
  exact handle_input_bounds E fuel lsize qsize _ d w d1 w1 h hb

theorem fresh_bounds (fd : Int) :
    input_bounds LINE_BUFFER_SIZE COMMAND_QUEUE_SIZE (descriptor_fresh fd) := by
  simp [input_bounds, descriptor_fresh, buffer_new, queue_new, Buffer.used, Queue.used]

/-! ## C18 -/

/-- C18. For every connection and every byte sequence s,
descriptor_handle_input on s gives the same result (the whole connection
record and the whole history, or no return) as on s with every carriage return
deleted, whatever the skip flag and the fill of the line buffer. -/
theorem C18_cr_ignored (E : Env) (fuel : Nat) (s : List Byte) (d : Descriptor) (w : World) :
    descriptor_handle_input E fuel d w s =
      descriptor_handle_input E fuel d w (s.filter (fun c => decide (c ≠ 13))) := by
  induction s generalizing d w with
  | nil => rfl
  | cons c rest ih =>
    by_cases h13 : c = 13
    · subst h13
      rw [handle_input_cr, ih]
      simp
    · have e : (c :: rest).filter (fun c => decide (c ≠ 13))
          = c :: rest.filter (fun c => decide (c ≠ 13)) := by
        simp [h13]
      rw [e, descriptor_handle_input, descriptor_handle_input]
      cases descriptor_handle_input_byte E fuel d w c with
      | none => rfl
      | some p => exact ih p.1 p.2

/-! ## C19 -/

/-- C19. On a connection that is not in overflow-skip mode, feeding a
backspace removes the last byte of the line buffer and changes nothing else; on
an empty line buffer it changes nothing at all; when the line buffer is below
capacity, an ordinary byte followed by a backspace leaves the connection and
the history unchanged. And a backspace is never stored or queued: from a
connection whose line buffer and queue hold ordinary bytes only, whatever is
fed, whenever the call returns neither the line buffer nor a queued line
contains a backspace. -/
theorem C19_backspace (E : Env) (fuel : Nat) (d : Descriptor) (w : World)
    (hskip : d.skip_until_newline = false) :
    descriptor_handle_input E fuel d w [8] =
      some ({ d with
              line_buffer := { d.line_buffer with data := d.line_buffer.data.dropLast } }, w) ∧
    (d.line_buffer.data = [] → descriptor_handle_input E fuel d w [8] = some (d, w)) ∧
    (∀ c, ordinary c → d.line_buffer.used < d.line_buffer.size →
      descriptor_handle_input E fuel d w [c, 8] = some (d, w)) ∧
    (∀ (lsize qsize : Nat) (s : List Byte) (d1 : Descriptor) (w1 : World),
      input_bounds lsize qsize d →
      descriptor_handle_input E fuel d w s = some (d1, w1) →
      8 ∉ d1.line_buffer.data ∧ ∀ l ∈ d1.command_queue.items, 8 ∉ l) := by
  have hb : descriptor_handle_input E fuel d w [8] =
      some ({ d with
              line_buffer := { d.line_buffer with data := d.line_buffer.data.dropLast } },
        w) := by
    simp [descriptor_handle_input, descriptor_handle_input_byte, hskip, buffer_backspace]
  refine ⟨hb, ?_, ?_, ?_⟩
  · intro hempty
    rw [hb]
    obtain ⟨fd, st, skip, np, nn, sd, de, ⟨lsz, ldata⟩, ob, cq, wd, ht⟩ := d
    simp only at hempty
    subst hempty
    rfl
  · intro c hc hroom
    rw [descriptor_handle_input, handle_input_byte_ordinary E fuel d w c hskip hc hroom]
    obtain ⟨fd, st, skip, np, nn, sd, de, ⟨lsz, ldata⟩, ob, cq, wd, ht⟩ := d
    simp only at hskip
    subst hskip
    simp [descriptor_handle_input, descriptor_handle_input_byte, buffer_backspace]
  · intro lsize qsize s d1 w1 hbounds hrun
    have h := handle_input_bounds E fuel lsize qsize s d w d1 w1 hrun hbounds
    obtain ⟨-, -, -, hlo, -, hqo⟩ := h
    exact ⟨fun h8 => (hlo 8 h8).1 rfl, fun l hl h8 => ((hqo l hl).2 8 h8).1 rfl⟩

/-- C19 on a new connection whose line buffer holds "hi": a backspace leaves
"h", and "!" followed by a backspace leaves "hi". -/
theorem C19_backspace_witness :
    descriptor_handle_input env_quiet 0
        { descriptor_fresh 3 with line_buffer := { size := 512, data := [104, 105] } }
        world0 [8] =
      some ({ descriptor_fresh 3 with line_buffer := { size := 512, data := [104] } },
        world0) ∧
    descriptor_handle_input env_quiet 0
        { descriptor_fresh 3 with line_buffer := { size := 512, data := [104, 105] } }
        world0 [33, 8] =
      some ({ descriptor_fresh 3 with line_buffer := { size := 512, data := [104, 105] } },
        world0) :=
  have h := C19_backspace env_quiet 0
    { descriptor_fresh 3 with line_buffer := { size := 512, data := [104, 105] } } world0 rfl
  ⟨h.1, h.2.2.1 33 (by decide) (by decide)⟩

/-! ## C12 -/

/-- C12 (as amended). For a NAWS subnegotiation whose payload has a length
other than 4, whenever descriptor_on_telnet_event returns, width and height are
both cleared and, apart from effects of the socket level, the history has grown
by exactly the warning and the DONT NAWS negotiation for that connection. If
the wire bytes of the negotiation fit in the free space of the output buffer,
the call does return, those bytes are appended to the output buffer, no other
field changes, in particular not the state, and nothing else happens to the
outside. -/
theorem C12_malformed_naws (E : Env) (fuel : Nat) (d : Descriptor) (w : World)
    (payload : List Byte) (hlen : payload.length ≠ 4) :
    (∀ d1 w1,
      descriptor_on_telnet_event E fuel d w
          (TelnetEvent.SUBNEGOTIATION Telopt.NAWS payload) = some (d1, w1) →
      d1.width = none ∧ d1.height = none ∧
      core_effects w1.trace = core_effects w.trace ++
        [Effect.log LogLine.warn_malformed_naws,
         Effect.telnet d.fd (TelnetCall.negotiate TelnetCmd.DONT Telopt.NAWS)]) ∧
    (d.output_buffer.used +
        tx_len E (w.trace.length + 1) (TelnetCall.negotiate TelnetCmd.DONT Telopt.NAWS)
        ≤ d.output_buffer.size →
      descriptor_on_telnet_event E fuel d w
          (TelnetEvent.SUBNEGOTIATION Telopt.NAWS payload) =
        some ({ d with
                width := none,
                height := none,
                output_buffer :=
                  { d.output_buffer with
                    data := d.output_buffer.data ++
                      (E.telnet_tx (w.trace.length + 1)
                        (TelnetCall.negotiate TelnetCmd.DONT Telopt.NAWS)).flatten } },
          (w.emit (Effect.log LogLine.warn_malformed_naws)).emit
            (Effect.telnet d.fd (TelnetCall.negotiate TelnetCmd.DONT Telopt.NAWS)))) := by
  have hev : descriptor_on_telnet_event E fuel d w
      (TelnetEvent.SUBNEGOTIATION Telopt.NAWS payload) =
      telnet_command E fuel { d with width := none, height := none }
        (w.emit (Effect.log LogLine.warn_malformed_naws))
        (TelnetCall.negotiate TelnetCmd.DONT Telopt.NAWS) := by
    simp [descriptor_on_telnet_event, hlen, descriptor_disable_naws]
  have hidx : (w.emit (Effect.log LogLine.warn_malformed_naws)).trace.length
      = w.trace.length + 1 := by
    simp [World.emit]
  rw [hev]
  constructor
  · intro d1 w1 h
    have hf := telnet_command_frame E fuel _ _ _ d1 w1 h
    have hc := telnet_command_core E fuel _ _ _ d1 w1 h
    have h1 := hf.1
    simp only [input_side, Prod.mk.injEq] at h1
    refine ⟨h1.2.2.2.2.2.2.2.2.1, h1.2.2.2.2.2.2.2.2.2, ?_⟩
    rw [hc]
    simp [World.emit, core_effects, output_effect]
  · intro hfit
    rw [telnet_command_fits E fuel _ _ _ (by rw [hidx]; exact hfit), hidx]

/-- C12 on a new connection and a payload of three bytes, with a telnet engine
that transmits three bytes for the negotiation: the connection stays OPEN and
the three bytes are in its output buffer. -/
theorem C12_malformed_naws_witness :
    descriptor_on_telnet_event env_wire 0 (descriptor_fresh 3) world0
        (TelnetEvent.SUBNEGOTIATION Telopt.NAWS [0, 80, 0]) =
      some ({ descriptor_fresh 3 with
              width := none,
              height := none,
              output_buffer :=
                { (descriptor_fresh 3).output_buffer with
                  data := (descriptor_fresh 3).output_buffer.data ++
                    (env_wire.telnet_tx (world0.trace.length + 1)
                      (TelnetCall.negotiate TelnetCmd.DONT Telopt.NAWS)).flatten } },
        (world0.emit (Effect.log LogLine.warn_malformed_naws)).emit
          (Effect.telnet (descriptor_fresh 3).fd
            (TelnetCall.negotiate TelnetCmd.DONT Telopt.NAWS))) :=
  (C12_malformed_naws env_wire 0 (descriptor_fresh 3) world0 [0, 80, 0] (by decide)).2
    (by decide)

/-- C12 as stated fails: on an OPEN connection whose output buffer is full,
while the peer has reset the connection, a NAWS payload of three bytes makes
the DONT NAWS negotiation flush the output buffer; the send fails and the
connection is CLOSED when the handler returns. -/
theorem C12_counterexample :
    ∃ d1 w1,
      descriptor_on_telnet_event env_reset_wire 1 (descriptor_crowded 3) world0
          (TelnetEvent.SUBNEGOTIATION Telopt.NAWS [0, 80, 0]) = some (d1, w1) ∧
      (descriptor_crowded 3).state = DescriptorState.OPEN ∧
      d1.state = DescriptorState.CLOSED := by
  have hfull : (descriptor_crowded 3).output_buffer.used
      = (descriptor_crowded 3).output_buffer.size := by
    simp only [descriptor_crowded, Buffer.used, List.length_replicate]
  have step : ∀ d : Descriptor, d.state ≠ DescriptorState.CLOSED →
      d.output_buffer.used = d.output_buffer.size → 0 < d.output_buffer.size →
      ∃ d1 w1,
        descriptor_on_telnet_event env_reset_wire 1 d world0
          (TelnetEvent.SUBNEGOTIATION Telopt.NAWS [0, 80, 0]) = some (d1, w1) ∧
        d1.state = DescriptorState.CLOSED := by
    intro d hst hfull hsz
    simp only [descriptor_on_telnet_event, descriptor_disable_naws, telnet_command,
      telnet_transmit, env_reset_wire]
    simp only [List.length_cons, List.length_nil, ne_eq, if_true, Nat.reduceAdd,
      not_false_eq_true, Nat.reduceEqDiff]
    rw [buffer_output_full_reset _ 0 _ _ [255, 254, 31] (by simpa using hst)
      (by simpa using hfull) (by simpa using hsz) (by decide) rfl]
    simp [descriptor_close, hst]
  obtain ⟨d1, w1, h1, h2⟩ := step (descriptor_crowded 3) (by decide) hfull (by decide)
  exact ⟨d1, w1, h1, rfl, h2⟩

/-! ## C15 -/

/-- While the output buffer is full and the socket reports would-block, an
iteration of the loop of descriptor_buffer_output makes one send call and
changes nothing else. -/
theorem buffer_output_loop_would_block (E : Env) (fuel n : Nat) (d : Descriptor) (w : World)
    (rest : List Byte)
    (hst : d.state ≠ DescriptorState.CLOSED)
    (hfull : d.output_buffer.used = d.output_buffer.size)
    (hsz : 0 < d.output_buffer.size)
    (hrest : 0 < rest.length)
    (hsend : E.send w.sends = SendResult.EAGAIN) :
    descriptor_buffer_output_loop E (fuel + 1) (n + 1) d w rest =
      descriptor_buffer_output_loop E (fuel + 1) n d { w with sends := w.sends + 1 } rest := by
  obtain ⟨fd, st, skip, np, nn, sd, de, lb, ⟨size, B⟩, cq, wd, ht⟩ := d
  simp only [Buffer.used] at *
  have h2 : descriptor_should_send
      { fd := fd, state := st, skip_until_newline := skip, needs_prompt := np,
        needs_newline := nn, self_delayed := sd, delay_end := de, line_buffer := lb,
        output_buffer := { size := size, data := B }, command_queue := cq, width := wd,
        height := ht } = true := by
    simp only [descriptor_should_send, Buffer.used, hfull]
    simp [hst, hsz]
  have h1 : min rest.length (size - B.length) = 0 := by omega
  simp only [descriptor_buffer_output_loop, hrest, if_true, descriptor_do_send, h2, hsend,
    not_true_eq_false, if_false, buffer_append, Buffer.used, h1, List.take_zero,
    List.append_nil, List.drop_zero]

/-- With a full output buffer and a socket that always reports would-block,
the loop of descriptor_buffer_output never returns. -/
theorem buffer_output_loop_spins (E : Env) (fuel n : Nat) (d : Descriptor)
    (rest : List Byte)
    (hst : d.state ≠ DescriptorState.CLOSED)
    (hfull : d.output_buffer.used = d.output_buffer.size)
    (hsz : 0 < d.output_buffer.size)
    (hrest : 0 < rest.length)
    (hsend : ∀ i, E.send i = SendResult.EAGAIN) :
    ∀ w : World, descriptor_buffer_output_loop E fuel n d w rest = none := by
  induction n with
  | zero => intro w; simp [descriptor_buffer_output_loop, hrest]
  | succ n ih =>
    intro w
    cases fuel with
    | zero =>
      have h2 : descriptor_should_send d = true := by
        simp only [descriptor_should_send, hfull]
        simp [hst, hsz]
      simp [descriptor_buffer_output_loop, hrest, descriptor_do_send, h2]
    | succ fuel =>
      rw [buffer_output_loop_would_block E fuel n d w rest hst hfull hsz hrest (hsend _)]
      exact ih _

/-- With a full output buffer, an iteration of the loop of
descriptor_buffer_output whose send finds the connection reset closes the
connection and ends the loop. -/
theorem buffer_output_loop_reset (E : Env) (fuel n : Nat) (d : Descriptor) (w : World)
    (rest : List Byte)
    (hst : d.state ≠ DescriptorState.CLOSED)
    (hfull : d.output_buffer.used = d.output_buffer.size)
    (hsz : 0 < d.output_buffer.size)
    (hrest : 0 < rest.length)
    (hsend : E.send w.sends = SendResult.ECONNRESET) :
    descriptor_buffer_output_loop E (fuel + 1) (n + 1) d w rest =
      some (descriptor_close E d { w with sends := w.sends + 1 }) := by
  have h2 : descriptor_should_send d = true := by
    simp only [descriptor_should_send, hfull]
    simp [hst, hsz]
  have h3 : descriptor_should_send (descriptor_close E d { w with sends := w.sends + 1 }).1
      = false := by
    simp [descriptor_should_send, close_state]
  simp only [descriptor_buffer_output_loop, hrest, if_true, descriptor_do_send, h2, hsend, h3]
  simp

/-- C15 (the code departs from the claim). On an OPEN connection whose output
buffer is full, descriptor_buffer_output is given one byte. While the socket
reports would-block the call does not return, whatever the fuel: each iteration
of its loop calls send again. With a socket that reports would-block three
times and then a reset connection, the call returns only after the fourth send
attempt. -/
theorem C15_buffer_output_spins (fuel : Nat) :
    descriptor_buffer_output env_quiet fuel (descriptor_crowded 3) world0 [65] = none ∧
    ∃ d1 w1,
      descriptor_buffer_output env_stubborn 4 (descriptor_crowded 3) world0 [65]
        = some (d1, w1) ∧
      w1.sends = 4 ∧ d1.state = DescriptorState.CLOSED := by
  have hfull : (descriptor_crowded 3).output_buffer.used
      = (descriptor_crowded 3).output_buffer.size := by
    simp only [descriptor_crowded, Buffer.used, List.length_replicate]
  have hstart : ∀ (E : Env) (f : Nat) (d : Descriptor) (w : World),
      d.output_buffer.used = d.output_buffer.size →
      descriptor_buffer_output E f d w [65] = descriptor_buffer_output_loop E f f d w [65] := by
    intro E f d w hf
    obtain ⟨fd, st, skip, np, nn, sd, de, lb, ⟨size, B⟩, cq, wd, ht⟩ := d
    simp only [Buffer.used] at hf
    simp [descriptor_buffer_output, buffer_append, Buffer.used, hf]
  constructor
  · rw [hstart _ _ _ _ hfull]
    exact buffer_output_loop_spins env_quiet fuel fuel (descriptor_crowded 3) [65]
      (by decide) hfull (by decide) (by decide) (fun _ => rfl) world0
  · rw [hstart _ _ _ _ hfull]
    rw [buffer_output_loop_would_block env_stubborn 3 3 _ world0 [65] (by decide) hfull
      (by decide) (by decide) rfl]
    rw [buffer_output_loop_would_block env_stubborn 3 2 _
      { world0 with sends := world0.sends + 1 } [65] (by decide) hfull (by decide)
      (by decide) rfl]
    rw [buffer_output_loop_would_block env_stubborn 3 1 _
      { world0 with sends := world0.sends + 1 + 1 } [65] (by decide) hfull (by decide)
      (by decide) rfl]
    rw [buffer_output_loop_reset env_stubborn 3 0 _
      { world0 with sends := world0.sends + 1 + 1 + 1 } [65] (by decide) hfull (by decide)
      (by decide) rfl]
    exact ⟨_, _, rfl, rfl, rfl⟩

/-! ## More on the reap -/

theorem remove_closed_draining (E : Env) (d : Descriptor) (rest : Registry) (w : World)
    (hdr : d.state = DescriptorState.DRAINING ∧ d.output_buffer.used = 0) :
    descriptor_remove_closed E (d :: rest) w =
      descriptor_remove_closed E rest
        (descriptor_destroy E (descriptor_close E d w).1 (descriptor_close E d w).2) := by
  simp [descriptor_remove_closed, hdr, close_state]

theorem remove_closed_closed (E : Env) (d : Descriptor) (rest : Registry) (w : World)
    (hcl : d.state = DescriptorState.CLOSED) :
    descriptor_remove_closed E (d :: rest) w =
      descriptor_remove_closed E rest (descriptor_destroy E d w) := by
  simp [descriptor_remove_closed, hcl]

theorem remove_closed_kept (E : Env) (d : Descriptor) (rest : Registry) (w : World)
    (hdr : ¬ (d.state = DescriptorState.DRAINING ∧ d.output_buffer.used = 0))
    (hcl : d.state ≠ DescriptorState.CLOSED) :
    descriptor_remove_closed E (d :: rest) w =
      (d :: (descriptor_remove_closed E rest w).1, (descriptor_remove_closed E rest w).2) := by
  simp [descriptor_remove_closed, hdr, hcl]

theorem close_trace_extends (E : Env) (d : Descriptor) (w : World) :
    ∃ extra, (descriptor_close E d w).2.trace = w.trace ++ extra := by
  by_cases h : d.state = DescriptorState.CLOSED
  · exact ⟨[], by simp [descriptor_close, h]⟩
  · cases hk : E.on_close w.trace.length
    · exact ⟨_, by simp [descriptor_close, h, hk, World.emit]; rfl⟩
    · exact ⟨[Effect.on_close d.fd, Effect.socket_close d.fd],
        by simp [descriptor_close, h, hk, World.emit]⟩
    · exact ⟨[Effect.on_close d.fd, Effect.log LogLine.error_on_close,
        Effect.socket_close d.fd], by simp [descriptor_close, h, hk, World.emit]⟩

theorem destroy_closed_trace (E : Env) (x : Descriptor) (v : World)
    (h : x.state = DescriptorState.CLOSED) :
    (descriptor_destroy E x v).trace = v.trace ++ [Effect.destroy x.fd] := by
  simp [descriptor_destroy, descriptor_close, h, World.emit]

theorem close_fd (E : Env) (d : Descriptor) (w : World) :
    (descriptor_close E d w).1.fd = d.fd := by
  by_cases h : d.state = DescriptorState.CLOSED <;> simp [descriptor_close, h]

/-- A reap only appends to the history. -/
theorem remove_closed_trace_extends (E : Env) (r : Registry) :
    ∀ w : World, ∃ extra, (descriptor_remove_closed E r w).2.trace = w.trace ++ extra := by
  induction r with
  | nil => intro w; exact ⟨[], by simp [descriptor_remove_closed]⟩
  | cons d rest ih =>
    intro w
    by_cases hdr : d.state = DescriptorState.DRAINING ∧ d.output_buffer.used = 0
    · rw [remove_closed_draining E d rest w hdr]
      obtain ⟨e1, h1⟩ := close_trace_extends E d w
      obtain ⟨e2, h2⟩ := ih (descriptor_destroy E (descriptor_close E d w).1
        (descriptor_close E d w).2)
      refine ⟨e1 ++ Effect.destroy d.fd :: e2, ?_⟩
      rw [h2, destroy_closed_trace E _ _ (close_state E d w), h1, close_fd]
      simp
    · by_cases hcl : d.state = DescriptorState.CLOSED
      · rw [remove_closed_closed E d rest w hcl]
        obtain ⟨e2, h2⟩ := ih (descriptor_destroy E d w)
        refine ⟨Effect.destroy d.fd :: e2, ?_⟩
        rw [h2, destroy_closed_trace E _ _ hcl]
        simp
      · rw [remove_closed_kept E d rest w hdr hcl]
        exact ih w

/-- A reap invokes no hook for a handle none of whose connections is DRAINING
with an empty output buffer. -/
theorem remove_closed_hook_calls_quiet (E : Env) (fd : Int) (r : Registry) :
    ∀ w : World,
      (∀ d ∈ r, d.fd = fd →
        ¬ (d.state = DescriptorState.DRAINING ∧ d.output_buffer.used = 0)) →
      hook_calls fd (descriptor_remove_closed E r w).2.trace = hook_calls fd w.trace := by
  induction r with
  | nil => intro w _; rfl
  | cons d rest ih =>
    intro w h
    have hd := h d (List.mem_cons_self _ _)
    have hrest : ∀ x ∈ rest, x.fd = fd →
        ¬ (x.state = DescriptorState.DRAINING ∧ x.output_buffer.used = 0) :=
      fun x hx => h x (List.mem_cons_of_mem _ hx)
    have hdestroy : ∀ (x : Descriptor) (v : World),
        (x.fd = fd → x.state = DescriptorState.CLOSED) →
        hook_calls fd (descriptor_destroy E x v).trace = hook_calls fd v.trace := by
      intro x v hx
      have := close_hook_calls_other E x v fd hx
      simpa [descriptor_destroy, World.emit, hook_calls, List.count_append] using this
    by_cases hdr : d.state = DescriptorState.DRAINING ∧ d.output_buffer.used = 0
    · rw [remove_closed_draining E d rest w hdr, ih _ hrest,
        hdestroy _ _ (fun _ => close_state E d w),
        close_hook_calls_other E d w fd (fun e => absurd hdr (hd e))]
    · by_cases hcl : d.state = DescriptorState.CLOSED
      · rw [remove_closed_closed E d rest w hcl, ih _ hrest, hdestroy _ _ (fun _ => hcl)]
      · rw [remove_closed_kept E d rest w hdr hcl]
        exact ih _ hrest

theorem remove_closed_append (E : Env) (r1 r2 : Registry) :
    ∀ w : World,
      descriptor_remove_closed E (r1 ++ r2) w =
        ((descriptor_remove_closed E r1 w).1 ++
            (descriptor_remove_closed E r2 (descriptor_remove_closed E r1 w).2).1,
          (descriptor_remove_closed E r2 (descriptor_remove_closed E r1 w).2).2) := by
  induction r1 with
  | nil => intro w; simp [descriptor_remove_closed]
  | cons d rest ih =>
    intro w
    by_cases hdr : d.state = DescriptorState.DRAINING ∧ d.output_buffer.used = 0
    · rw [List.cons_append, remove_closed_draining E d _ w hdr,
        remove_closed_draining E d rest w hdr, ih]
    · by_cases hcl : d.state = DescriptorState.CLOSED
      · rw [List.cons_append, remove_closed_closed E d _ w hcl,
          remove_closed_closed E d rest w hcl, ih]
      · rw [List.cons_append, remove_closed_kept E d _ w hdr hcl,
          remove_closed_kept E d rest w hdr hcl, ih]
        simp

/-! ## C14 -/

/-- C14. After descriptor_remove_closed the registry holds exactly the
connections that were neither CLOSED nor DRAINING with an empty output buffer,
unchanged and in order. In a registry of distinct handles: for a connection
that was DRAINING with an empty output buffer, an installed on_close hook is
invoked exactly once for its handle during the reap, and that call comes
before the destructor runs for the handle; for any other connection no hook is
invoked for its handle; and a DRAINING connection with pending output is still
in the registry. -/
theorem C14_reap_postcondition (E : Env) (r : Registry) (w : World) :
    (descriptor_remove_closed E r w).1 = r.filter (fun d => ! reaped d) ∧
    (Registry.wf r → ∀ d ∈ r,
      (d.state = DescriptorState.DRAINING ∧ d.output_buffer.used = 0 →
        (∀ i, E.on_close i ≠ HookOutcome.absent) →
        hook_calls d.fd (descriptor_remove_closed E r w).2.trace
          = hook_calls d.fd w.trace + 1 ∧
        ∃ a b,
          (descriptor_remove_closed E r w).2.trace = a ++ Effect.destroy d.fd :: b ∧
          hook_calls d.fd a = hook_calls d.fd w.trace + 1) ∧
      (¬ (d.state = DescriptorState.DRAINING ∧ d.output_buffer.used = 0) →
        hook_calls d.fd (descriptor_remove_closed E r w).2.trace = hook_calls d.fd w.trace) ∧
      (d.state = DescriptorState.DRAINING ∧ 0 < d.output_buffer.used →
        d ∈ (descriptor_remove_closed E r w).1)) := by
  refine ⟨remove_closed_registry E r w, ?_⟩
  intro hwf d hd
  obtain ⟨before, after, rfl⟩ := List.append_of_mem hd
  have hnodup : ∀ x ∈ before ++ after, x.fd ≠ d.fd := by
    intro x hx
    simp only [Registry.wf, List.map_append, List.map_cons] at hwf
    have h1 := List.nodup_middle.mp hwf
    have h2 := (List.nodup_cons.mp h1).1
    intro e
    apply h2
    rw [← List.map_append, ← e]
    exact List.mem_map_of_mem _ hx
  have hbefore : ∀ v : World,
      hook_calls d.fd (descriptor_remove_closed E before v).2.trace = hook_calls d.fd v.trace :=
    fun v => remove_closed_hook_calls_quiet E d.fd before v
      (fun x hx e => absurd e (hnodup x (List.mem_append_left _ hx)))
  have hafter : ∀ v : World,
      hook_calls d.fd (descriptor_remove_closed E after v).2.trace = hook_calls d.fd v.trace :=
    fun v => remove_closed_hook_calls_quiet E d.fd after v
      (fun x hx e => absurd e (hnodup x (List.mem_append_right _ hx)))
  refine ⟨?_, ?_, ?_⟩
  · intro hdr hhook
    have hne : d.state ≠ DescriptorState.CLOSED := by rw [hdr.1]; decide
    rw [remove_closed_append, remove_closed_draining E d after _ hdr]
    simp only []
    have hclose := close_hook_calls_self E d (descriptor_remove_closed E before w).2 hne
      (hhook _)
    rw [hbefore w] at hclose
    have hdestroy := destroy_closed_trace E _ (descriptor_close E d
      (descriptor_remove_closed E before w).2).2
      (close_state E d (descriptor_remove_closed E before w).2)
    rw [close_fd] at hdestroy
    obtain ⟨e2, h2⟩ := remove_closed_trace_extends E after
      (descriptor_destroy E (descriptor_close E d (descriptor_remove_closed E before w).2).1
        (descriptor_close E d (descriptor_remove_closed E before w).2).2)
    constructor
    · rw [hafter, hdestroy]
      simp only [hook_calls, List.count_append] at hclose ⊢
      simp [hclose]
    · refine ⟨(descriptor_close E d (descriptor_remove_closed E before w).2).2.trace, e2,
        ?_, hclose⟩
      rw [h2, hdestroy]
      simp
  · intro hdr
    exact remove_closed_hook_calls_quiet E d.fd _ w (by
      intro x hx e
      rcases List.mem_append.mp hx with hb | ha
      · exact absurd e (hnodup x (List.mem_append_left _ hb))
      · rcases List.mem_cons.mp ha with rfl | ha2
        · exact hdr
        · exact absurd e (hnodup x (List.mem_append_right _ ha2)))
  · intro hp
    rw [remove_closed_registry]
    refine List.mem_filter.mpr ⟨hd, ?_⟩
    have hne : d.output_buffer.used ≠ 0 := by omega
    simp [reaped, hp.1, hne]

/-- C14 on a registry of a connection DRAINING with an empty output buffer, a
connection DRAINING with pending output, a CLOSED connection and an OPEN one:
the second and the fourth remain, and the hook ran once for the first. -/
theorem C14_reap_postcondition_witness :
    (descriptor_remove_closed env_quiet
      [{ descriptor_fresh 3 with state := DescriptorState.DRAINING },
       { descriptor_fresh 4 with
         state := DescriptorState.DRAINING,
         output_buffer := { size := 4096, data := [65] } },
       { descriptor_fresh 5 with state := DescriptorState.CLOSED },
       descriptor_fresh 6] world0).1 =
      [{ descriptor_fresh 4 with
         state := DescriptorState.DRAINING,
         output_buffer := { size := 4096, data := [65] } },
       descriptor_fresh 6] ∧
    hook_calls 3 (descriptor_remove_closed env_quiet
      [{ descriptor_fresh 3 with state := DescriptorState.DRAINING },
       { descriptor_fresh 4 with
         state := DescriptorState.DRAINING,
         output_buffer := { size := 4096, data := [65] } },
       { descriptor_fresh 5 with state := DescriptorState.CLOSED },
       descriptor_fresh 6] world0).2.trace = hook_calls 3 world0.trace + 1 := by
  have h := C14_reap_postcondition env_quiet
    [{ descriptor_fresh 3 with state := DescriptorState.DRAINING },
     { descriptor_fresh 4 with
       state := DescriptorState.DRAINING,
       output_buffer := { size := 4096, data := [65] } },
     { descriptor_fresh 5 with state := DescriptorState.CLOSED },
     descriptor_fresh 6] world0
  refine ⟨h.1.trans (by decide), ?_⟩
  exact ((h.2 (by unfold Registry.wf; decide) _ (List.mem_cons_self _ _)).1
    ⟨rfl, rfl⟩ (fun _ => by simp [env_quiet])).1

/-! ## Lemmas on the prompt -/

/-- The C string of a text holds no NUL and is the whole text when the text
holds none. -/
theorem c_string_spec (text : List Byte) :
    (∀ c ∈ c_string text, c ≠ 0) ∧ ((∀ c ∈ text, c ≠ 0) → c_string text = text) := by
  refine ⟨fun c hc => ?_, fun h => ?_⟩
  · have := List.mem_takeWhile_imp hc
    simpa using this
  · unfold c_string
    rw [List.takeWhile_eq_self_iff]
    intro c hc
    simpa using h c hc

/-- descriptor_send_prompt after a prompt callback that raised: the connection
is CLOSED, no other field changes, and apart from effects of the socket level
the history has grown by the callback and the error line: no call into the
telnet engine. -/
theorem send_prompt_raises (E : Env) (fuel : Nat) (d : Descriptor) (w : World)
    (hst : d.state ≠ DescriptorState.CLOSED)
    (hp : E.prompt w.trace.length = PromptOutcome.raises) :
    ∃ w1, descriptor_send_prompt E fuel d w =
        Except.ok ({ d with state := DescriptorState.CLOSED }, w1) ∧
      core_effects w1.trace = core_effects w.trace ++
        [Effect.prompt d.fd, Effect.log LogLine.error_prompt_callback] := by
  refine ⟨(descriptor_close E d ((w.emit (Effect.prompt d.fd)).emit
    (Effect.log LogLine.error_prompt_callback))).2, ?_, ?_⟩
  · simp only [descriptor_send_prompt, hp]
    simp [descriptor_close, hst]
  · rw [close_core]
    simp [World.emit, core_effects, output_effect]

/-- descriptor_send_prompt after a prompt lookup that gave a string, whenever
it returns: needs_prompt is clear and needs_newline set, the other fields of
the input side are unchanged, and apart from effects of the socket level the
history has grown by the callback (when the prompt is callable), the
telnet_send of a line break if one was pending, the telnet_send of the text up
to its first NUL, and one go-ahead. -/
theorem send_prompt_text (E : Env) (fuel : Nat) (d : Descriptor) (w : World)
    (d1 : Descriptor) (w1 : World) (text : List Byte)
    (hp : E.prompt w.trace.length = PromptOutcome.static text ∨
      E.prompt w.trace.length = PromptOutcome.returns text)
    (h : descriptor_send_prompt E fuel d w = Except.ok (d1, w1)) :
    input_side d1 = input_side { d with needs_prompt := false, needs_newline := true } ∧
    core_effects w1.trace = core_effects w.trace ++
      (if E.prompt w.trace.length = PromptOutcome.returns text then [Effect.prompt d.fd]
        else []) ++
      (if d.needs_newline then [Effect.telnet d.fd (TelnetCall.send [13, 10])] else []) ++
      [Effect.telnet d.fd (TelnetCall.send (c_string text)),
       Effect.telnet d.fd (TelnetCall.iac TelnetCmd.GA)] := by
  have hfinish : ∀ (w0 : World),
      (match descriptor_append E fuel d w0 (c_string text) with
        | none => Except.error Fault.stalled
        | some (d1, w1) =>
          match telnet_command E fuel { d1 with needs_prompt := false, needs_newline := true }
              w1 (TelnetCall.iac TelnetCmd.GA) with
          | none => Except.error Fault.stalled
          | some r => Except.ok r) = Except.ok (d1, w1) →
      input_side d1 = input_side { d with needs_prompt := false, needs_newline := true } ∧
      core_effects w1.trace = core_effects w0.trace ++
        (if d.needs_newline then [Effect.telnet d.fd (TelnetCall.send [13, 10])] else []) ++
        [Effect.telnet d.fd (TelnetCall.send (c_string text)),
         Effect.telnet d.fd (TelnetCall.iac TelnetCmd.GA)] := by
    intro w0 hrun
    cases ha : descriptor_append E fuel d w0 (c_string text) with
    | none => simp [ha] at hrun
    | some p =>
      obtain ⟨d2, w2⟩ := p
      simp only [ha] at hrun
      cases hg : telnet_command E fuel { d2 with needs_prompt := false, needs_newline := true }
          w2 (TelnetCall.iac TelnetCmd.GA) with
      | none => simp [hg] at hrun
      | some q =>
        simp only [hg, Except.ok.injEq] at hrun
        subst hrun
        have hs := descriptor_append_spec E fuel d w0 (c_string text) d2 w2 ha
        have hf := telnet_command_frame E fuel _ w2 _ d1 w1 hg
        have hc := telnet_command_core E fuel _ w2 _ d1 w1 hg
        have g1 := hs.1
        have g2 := hf.1
        simp only [input_side, Prod.mk.injEq] at g1 g2 ⊢
        refine ⟨by simp [g1, g2], ?_⟩
        rw [hc, hs.2]
        simp [g1]
  rcases hp with hp | hp
  · simp only [descriptor_send_prompt, hp] at h
    have := hfinish w h
    simpa [hp] using this
  · simp only [descriptor_send_prompt, hp] at h
    have := hfinish _ h
    simpa [hp, World.emit, core_effects, output_effect] using this

/-- descriptor_send_prompt after a prompt lookup that gave no string: the call
does not return, and with no line break pending it is at strlen(NULL) before
any call into the telnet engine, the callback (when the prompt is callable)
being all that has happened. -/
theorem send_prompt_null (E : Env) (fuel : Nat) (d : Descriptor) (w : World)
    (hp : E.prompt w.trace.length = PromptOutcome.static_null ∨
      E.prompt w.trace.length = PromptOutcome.returns_null) :
    (∃ f, descriptor_send_prompt E fuel d w = Except.error f) ∧
    (d.needs_newline = false →
      descriptor_send_prompt E fuel d w =
        Except.error (Fault.null_deref
          (if E.prompt w.trace.length = PromptOutcome.returns_null then
            w.emit (Effect.prompt d.fd) else w))) := by
  rcases hp with hp | hp
  · refine ⟨⟨descriptor_append_null E fuel d w, by simp only [descriptor_send_prompt, hp]⟩,
      fun hnn => ?_⟩
    simp [descriptor_send_prompt, hp, descriptor_append_null, hnn]
  · refine ⟨⟨descriptor_append_null E fuel d (w.emit (Effect.prompt d.fd)),
      by simp only [descriptor_send_prompt, hp]⟩, fun hnn => ?_⟩
    simp [descriptor_send_prompt, hp, descriptor_append_null, hnn]

/-- descriptor_send_prompts leaves alone a connection that does not need a
prompt or is not OPEN, and goes on with the rest of the table at the same
history. -/
theorem send_prompts_skip (E : Env) (fuel : Nat) (d : Descriptor) (rest : Registry)
    (w : World) (h : ¬ (d.needs_prompt = true ∧ d.state = DescriptorState.OPEN)) :
    descriptor_send_prompts E fuel (d :: rest) w =
      match descriptor_send_prompts E fuel rest w with
      | Except.error f => Except.error f
      | Except.ok (r, w2) => Except.ok (d :: r, w2) := by
  simp only [descriptor_send_prompts, h, if_false]

/-- descriptor_send_prompts on a connection that needs a prompt and is OPEN:
the phase does not return when descriptor_send_prompt does not, and otherwise
goes on with the rest of the table at the history that call has left. -/
theorem send_prompts_due (E : Env) (fuel : Nat) (d : Descriptor) (rest : Registry)
    (w : World) (h : d.needs_prompt = true ∧ d.state = DescriptorState.OPEN) :
    descriptor_send_prompts E fuel (d :: rest) w =
      match descriptor_send_prompt E fuel d w with
      | Except.error f => Except.error f
      | Except.ok (d1, w1) =>
        match descriptor_send_prompts E fuel rest w1 with
        | Except.error f => Except.error f
        | Except.ok (r, w2) => Except.ok (d1 :: r, w2) := by
  simp only [descriptor_send_prompts, h, and_self, if_true]

/-! ## C17 -/

/-- C17 (the code departs from the claim). The prompt phase on a table of two
new connections, both OPEN with needs_prompt set, for every fuel. When the
prompt callback returns the string "> ", the phase returns: each connection has
the text and the go-ahead in its output buffer, needs_prompt clear and
needs_newline set. When the prompt callback returns without error but its
result is nil, the phase does not return: after the callback of the first
connection descriptor_append is at strlen(NULL); no prompt text and no go-ahead
is sent, no flag is set, and the second connection is not reached. The same
holds, without the callback, when the connection table has no prompt field. -/
theorem C17_prompt_null_deref (fuel : Nat) :
    descriptor_send_prompts (env_prompt (some [62, 32])) fuel
        [descriptor_fresh 3, descriptor_fresh 4] world0 =
      Except.ok
        ([{ descriptor_fresh 3 with
            needs_prompt := false, needs_newline := true,
            output_buffer := { size := OUTPUT_BUFFER_SIZE, data := [62, 32, 255, 249] } },
          { descriptor_fresh 4 with
            needs_prompt := false, needs_newline := true,
            output_buffer := { size := OUTPUT_BUFFER_SIZE, data := [62, 32, 255, 249] } }],
         { world0 with
           trace :=
             [Effect.prompt 3,
              Effect.telnet 3 (TelnetCall.send [62, 32]),
              Effect.telnet 3 (TelnetCall.iac TelnetCmd.GA),
              Effect.prompt 4,
              Effect.telnet 4 (TelnetCall.send [62, 32]),
              Effect.telnet 4 (TelnetCall.iac TelnetCmd.GA)] }) ∧
    descriptor_send_prompts (env_prompt none) fuel
        [descriptor_fresh 3, descriptor_fresh 4] world0 =
      Except.error (Fault.null_deref { world0 with trace := [Effect.prompt 3] }) ∧
    descriptor_send_prompts env_no_prompt fuel
        [descriptor_fresh 3, descriptor_fresh 4] world0 =
      Except.error (Fault.null_deref world0) := by
  refine ⟨?_, ?_, ?_⟩
  · cases fuel <;> rfl
  · rfl
  · rfl

/-! ## Return of the output path on a socket that never stalls -/

theorem do_send_ready (E : Env) (size : Nat) (hE : socket_ready E size) (fuel : Nat)
    (d : Descriptor) (w : World) (hb : output_bounds size d) :
    ∃ d1 w1, descriptor_do_send E (fuel + 1) d w = some (d1, w1) ∧
      output_bounds size d1 ∧ descriptor_should_send d1 = false := by
  by_cases hs : descriptor_should_send d = true
  · obtain ⟨room, hroom, hsend⟩ := hE w.sends
    obtain ⟨fd, st, skip, np, nn, sd, de, lb, ⟨osz, B⟩, cq, wd, ht⟩ := d
    simp only [output_bounds, Buffer.used] at hb
    obtain ⟨rfl, hu⟩ := hb
    have hmin : min room B.length = B.length := by omega
    have hidle : descriptor_should_send
        { fd := fd, state := st, skip_until_newline := skip, needs_prompt := np,
          needs_newline := nn, self_delayed := sd, delay_end := de, line_buffer := lb,
          output_buffer := { size := osz, data := [] }, command_queue := cq, width := wd,
          height := ht } = false := by
      simp [descriptor_should_send, Buffer.used]
    refine ⟨_, (({ w with sends := w.sends + 1 } : World).emit (Effect.sent fd B)).emit
      (Effect.log (LogLine.debug_sent B.length)), ?_, ?_, hidle⟩
    · simp only [descriptor_do_send, hs, if_true, hsend, Buffer.used, hmin, buffer_drain,
        List.drop_length, List.take_length]
      exact do_send_idle E fuel _ _ hidle
    · simp [output_bounds, Buffer.used]
  · have hs' : descriptor_should_send d = false := by simpa using hs
    exact ⟨d, w, do_send_idle E _ d w hs', hb, hs'⟩

theorem buffer_output_ready (E : Env) (size : Nat) (hE : socket_ready E size) (fuel : Nat)
    (d : Descriptor) (w : World) (data : List Byte) (hb : output_bounds size d) :
    ∃ d1 w1, descriptor_buffer_output E (fuel + 1) d w data = some (d1, w1) ∧
      output_bounds size d1 := by
  have hb1 : output_bounds size
      { d with output_buffer := (buffer_append d.output_buffer data).1 } := by
    obtain ⟨h1, h2⟩ := hb
    simp only [output_bounds, buffer_append, Buffer.used, List.length_append,
      List.length_take] at h1 h2 ⊢
    exact ⟨h1, by omega⟩
  by_cases hrest : (data.drop (buffer_append d.output_buffer data).2).length > 0
  · obtain ⟨d1, w1, h1, hb2, hidle⟩ := do_send_ready E size hE fuel _ w hb1
    refine ⟨d1, w1, ?_, hb2⟩
    simp only [descriptor_buffer_output, descriptor_buffer_output_loop, hrest, if_true, h1,
      hidle]
    simp
  · exact ⟨_, w, by simp only [descriptor_buffer_output, descriptor_buffer_output_loop, hrest,
      if_false], hb1⟩

theorem telnet_transmit_ready (E : Env) (size : Nat) (hE : socket_ready E size) (fuel : Nat)
    (chunks : List (List Byte)) :
    ∀ (d : Descriptor) (w : World), output_bounds size d →
      ∃ d1 w1, telnet_transmit E (fuel + 1) chunks d w = some (d1, w1) ∧
        output_bounds size d1 := by
  induction chunks with
  | nil => intro d w hb; exact ⟨d, w, rfl, hb⟩
  | cons chunk rest ih =>
    intro d w hb
    obtain ⟨d1, w1, h1, hb1⟩ := buffer_output_ready E size hE fuel d w chunk hb
    obtain ⟨d2, w2, h2, hb2⟩ := ih d1 w1 hb1
    exact ⟨d2, w2, by simp only [telnet_transmit, h1, h2], hb2⟩

theorem descriptor_append_ready (E : Env) (size : Nat) (hE : socket_ready E size) (fuel : Nat)
    (d : Descriptor) (w : World) (msg : List Byte) (hb : output_bounds size d) :
    ∃ d1 w1, descriptor_append E (fuel + 1) d w msg = some (d1, w1) ∧
      output_bounds size d1 := by
  cases hnn : d.needs_newline
  · obtain ⟨d1, w1, h1, hb1⟩ := telnet_transmit_ready E size hE fuel
      (E.telnet_tx w.trace.length (TelnetCall.send msg)) d
      (w.emit (Effect.telnet d.fd (TelnetCall.send msg))) hb
    refine ⟨{ d1 with needs_prompt := true }, w1, ?_, hb1⟩
    simp only [descriptor_append, hnn, Bool.false_eq_true, if_false, telnet_command, h1]
  · obtain ⟨d1, w1, h1, hb1⟩ := telnet_transmit_ready E size hE fuel
      (E.telnet_tx w.trace.length (TelnetCall.send [13, 10])) d
      (w.emit (Effect.telnet d.fd (TelnetCall.send [13, 10]))) hb
    obtain ⟨d2, w2, h2, hb2⟩ := telnet_transmit_ready E size hE fuel
      (E.telnet_tx w1.trace.length (TelnetCall.send msg)) { d1 with needs_newline := false }
      (w1.emit (Effect.telnet d1.fd (TelnetCall.send msg))) hb1
    refine ⟨{ d2 with needs_prompt := true }, w2, ?_, hb2⟩
    simp only [descriptor_append, hnn, if_true, telnet_command, h1, h2]

theorem handle_input_byte_ready (E : Env) (size : Nat) (hE : socket_ready E size)
    (fuel : Nat) (d : Descriptor) (w : World) (c : Byte) (hb : output_bounds size d) :
    ∃ d1 w1, descriptor_handle_input_byte E (fuel + 1) d w c = some (d1, w1) ∧
      output_bounds size d1 := by
  by_cases h13 : c = 13
  · exact ⟨d, w, by simp only [descriptor_handle_input_byte, h13, if_true], hb⟩
  by_cases h10 : c = 10
  · subst h10
    by_cases hroom : d.command_queue.used < d.command_queue.size
    · refine ⟨{ d with
                needs_newline := false,
                skip_until_newline := false,
                command_queue :=
                  { d.command_queue with
                    items := d.command_queue.items ++ [d.line_buffer.data] },
                line_buffer := buffer_clear d.line_buffer }, w, ?_, hb⟩
      simp [descriptor_handle_input_byte, queue_push_back_len, hroom]
    · obtain ⟨d1, w1, h1, hb1⟩ := descriptor_append_ready E size hE fuel
        { d with needs_newline := false, skip_until_newline := false } w queue_full_notice hb
      refine ⟨{ d1 with line_buffer := buffer_clear d1.line_buffer }, w1, ?_, hb1⟩
      simp only [descriptor_handle_input_byte, queue_push_back_len, hroom]
      simp only [if_false, Bool.false_eq_true]
      simp [h1]
  by_cases hskip : d.skip_until_newline = true
  · exact ⟨d, w, by simp only [descriptor_handle_input_byte, h13, h10, hskip, if_true,
      if_false], hb⟩
  have hskip' : d.skip_until_newline = false := by simpa using hskip
  by_cases h8 : c = 8
  · refine ⟨{ d with line_buffer := buffer_backspace d.line_buffer }, w, ?_, hb⟩
    simp [descriptor_handle_input_byte, h8, hskip']
  by_cases hroom : d.line_buffer.used < d.line_buffer.size
  · refine ⟨{ d with line_buffer := { d.line_buffer with data := d.line_buffer.data ++ [c] } },
      w, ?_, hb⟩
    exact handle_input_byte_ordinary E _ d w c hskip' ⟨h8, h10, h13⟩ hroom
  · obtain ⟨fd, st, skip, np, nn, sd, de, lb, ob, cq, wd, ht⟩ := d
    simp only at hskip' hroom
    subst hskip'
    obtain ⟨d1, w1, h1, hb1⟩ := descriptor_append_ready E size hE fuel
      { fd := fd, state := st, skip_until_newline := false, needs_prompt := np,
        needs_newline := nn, self_delayed := sd, delay_end := de, line_buffer := lb,
        output_buffer := ob, command_queue := cq, width := wd, height := ht }
      w line_too_long_notice hb
    refine ⟨{ d1 with skip_until_newline := true }, w1, ?_, hb1⟩
    simp only [descriptor_handle_input_byte, h13, h10, h8, buffer_append_c, hroom,
      if_false, Bool.false_eq_true, h1]

/-- On a socket that never stalls, with fuel for one iteration of each loop,
descriptor_handle_input returns for every input. -/
theorem handle_input_ready (E : Env) (size : Nat) (hE : socket_ready E size) (fuel : Nat)
    (s : List Byte) :
    ∀ (d : Descriptor) (w : World), output_bounds size d →
      ∃ d1 w1, descriptor_handle_input E (fuel + 1) d w s = some (d1, w1) ∧
        output_bounds size d1 := by
  induction s with
  | nil => intro d w hb; exact ⟨d, w, rfl, hb⟩
  | cons c rest ih =>
    intro d w hb
    obtain ⟨d1, w1, h1, hb1⟩ := handle_input_byte_ready E size hE fuel d w c hb
    obtain ⟨d2, w2, h2, hb2⟩ := ih d1 w1 hb1
    exact ⟨d2, w2, by simp only [descriptor_handle_input, h1, h2], hb2⟩

/-- On a socket that never stalls, with fuel for one iteration of each loop,
descriptor_send_prompt returns whenever the prompt lookup gives a string or the
callback raises. -/
theorem send_prompt_ready (E : Env) (size : Nat) (hE : socket_ready E size) (fuel : Nat)
    (d : Descriptor) (w : World) (hb : output_bounds size d)
    (hp : E.prompt w.trace.length ≠ PromptOutcome.static_null ∧
      E.prompt w.trace.length ≠ PromptOutcome.returns_null) :
    ∃ d1 w1, descriptor_send_prompt E (fuel + 1) d w = Except.ok (d1, w1) := by
  have hfinish : ∀ (text : List Byte) (w0 : World),
      ∃ d1 w1,
        (match descriptor_append E (fuel + 1) d w0 (c_string text) with
          | none => Except.error Fault.stalled
          | some (d1, w1) =>
            match telnet_command E (fuel + 1)
                { d1 with needs_prompt := false, needs_newline := true }
                w1 (TelnetCall.iac TelnetCmd.GA) with
            | none => Except.error Fault.stalled
            | some r => Except.ok r) = Except.ok (d1, w1) := by
    intro text w0
    obtain ⟨d1, w1, h1, hb1⟩ := descriptor_append_ready E size hE fuel d w0 (c_string text) hb
    obtain ⟨d2, w2, h2, -⟩ := telnet_transmit_ready E size hE fuel
      (E.telnet_tx w1.trace.length (TelnetCall.iac TelnetCmd.GA))
      { d1 with needs_prompt := false, needs_newline := true }
      (w1.emit (Effect.telnet d1.fd (TelnetCall.iac TelnetCmd.GA))) hb1
    exact ⟨d2, w2, by simp only [h1, telnet_command, h2]⟩
  cases hq : E.prompt w.trace.length with
  | static text =>
    obtain ⟨d1, w1, h⟩ := hfinish text w
    exact ⟨d1, w1, by simp only [descriptor_send_prompt, hq]; exact h⟩
  | static_null => exact absurd hq hp.1
  | returns text =>
    obtain ⟨d1, w1, h⟩ := hfinish text (w.emit (Effect.prompt d.fd))
    exact ⟨d1, w1, by simp only [descriptor_send_prompt, hq]; exact h⟩
  | returns_null => exact absurd hq hp.2
  | raises =>
    exact ⟨(descriptor_close E d ((w.emit (Effect.prompt d.fd)).emit
        (Effect.log LogLine.error_prompt_callback))).1,
      (descriptor_close E d ((w.emit (Effect.prompt d.fd)).emit
        (Effect.log LogLine.error_prompt_callback))).2,
      by simp only [descriptor_send_prompt, hq]⟩

/-! ## C20 -/

/-- C20. A new connection satisfies the bounds of the input side. From any
connection that does, for every byte sequence in every chunking, whenever the
last call of descriptor_handle_input has returned: the command queue holds at
most 10 lines, the line buffer at most 512 bytes, and every queued line has
length at most 512 and contains no carriage return, line feed or backspace.
And on a socket that never stalls, with fuel for one iteration of each loop,
every call does return. -/
theorem C20_queue_well_formed (E : Env) (fuel : Nat) (d : Descriptor) (w : World)
    (chunks : List (List Byte))
    (hd : input_bounds LINE_BUFFER_SIZE COMMAND_QUEUE_SIZE d) :
    input_bounds LINE_BUFFER_SIZE COMMAND_QUEUE_SIZE (descriptor_fresh d.fd) ∧
    (∀ d1 w1, feed_chunks E fuel d w chunks = some (d1, w1) →
      d1.command_queue.used ≤ 10 ∧
      d1.line_buffer.used ≤ 512 ∧
      ∀ l ∈ d1.command_queue.items,
        l.length ≤ 512 ∧ ∀ c ∈ l, c ≠ 13 ∧ c ≠ 10 ∧ c ≠ 8) ∧
    (socket_ready E d.output_buffer.size → d.output_buffer.used ≤ d.output_buffer.size →
      ∃ d1 w1, feed_chunks E (fuel + 1) d w chunks = some (d1, w1)) := by
  refine ⟨fresh_bounds d.fd, ?_, ?_⟩
  · intro d1 w1 hrun
    have h := feed_chunks_bounds E fuel _ _ chunks d w d1 w1 hrun hd
    obtain ⟨-, -, hlu, -, hqu, hqo⟩ := h
    refine ⟨hqu, hlu, ?_⟩
    intro l hl
    refine ⟨(hqo l hl).1, fun c hc => ?_⟩
    have := (hqo l hl).2 c hc
    exact ⟨this.2.2, this.2.1, this.1⟩
  · intro hE hu
    obtain ⟨d1, w1, h, -⟩ := handle_input_ready E _ hE fuel chunks.flatten d w ⟨rfl, hu⟩
    exact ⟨d1, w1, by rw [feed_chunks_flatten]; exact h⟩

/-- C20 on a new connection fed "h\r", "i\b" and "\n" in three calls: the one
queued line is "h". -/
theorem C20_queue_well_formed_witness :
    ({ descriptor_fresh 3 with
       command_queue := { size := 10, items := [[104]] } } : Descriptor).command_queue.used
      ≤ 10 ∧
    ({ descriptor_fresh 3 with
       command_queue := { size := 10, items := [[104]] } } : Descriptor).line_buffer.used
      ≤ 512 ∧
    ∀ l ∈ ({ descriptor_fresh 3 with
       command_queue := { size := 10, items := [[104]] } } : Descriptor).command_queue.items,
      l.length ≤ 512 ∧ ∀ c ∈ l, c ≠ 13 ∧ c ≠ 10 ∧ c ≠ 8 :=
  (C20_queue_well_formed env_quiet 0 (descriptor_fresh 3) world0
    [[104, 13], [105, 8], [10]] (fresh_bounds 3)).2.1
    { descriptor_fresh 3 with command_queue := { size := 10, items := [[104]] } } world0
    (by decide)

end MudCore
